import Mathlib

/-!
# GPSAnalysis: the track accumulator, the split segmenter, the haversine distance and the
clock-time text

A shallow embedding of `src/GPSAnalysis/GPSAnalysis.c`.  The co-occurrence scan of
`src/SocialNetwork/SocialNetwork.c` follows in the namespace `SocialNetwork`.

Conventions of the embedding.

* A C `double` is idealised as a real number: `sin`, `cos`, `sqrt`, `pow` and `atan2` of
  `math.h` are the real functions (`atan2 y x` is the argument of `x + y i`), without
  rounding, infinities or NaN.  The one place where the ideal value does not exist, a
  division by zero, is made explicit by `ieee_div`.  What is proved of `haversine_m` is
  proved of the exact value: the rounding of the doubles is outside the embedding, and at
  antipodal points, where the exact `a` is 1, it decides whether `sqrt (1.0 - a)` has a
  non-negative argument.
* `int` and `long int` values are integers; the counters of `calculate_tot_dist` grow by at
  most one for each node of the list.  Where a cast narrows a value (`sec_to_clock_time`)
  and where line numbers are added (`SocialNetwork`) the 32-bit wrap is explicit.
* `sprintf` into a character array of fixed size either fits, text and terminating NUL, or
  overruns the array, which is a `Fault`.
* The linked list `head .. curr` is a `List node`; `ptr -> next == NULL` is "the rest of
  the list is empty" and `curr` is the last node.  The list `headSplit .. currSplit` is a
  `List split`.
* The field `timeString` is held as the second count that its text denotes.  The function
  is embedded twice.  `loop_body` and `calculate_tot_dist` take `mktime` to return that
  second count, so that `difftime (mktime a) (mktime b)` is a subtraction of integers, and
  stop before the table is printed; they carry what does not depend on the values of the
  durations.  `loop_body_tm` and `calculate_tot_dist_tm` follow the source with its
  `struct tm` locals, whose `tm_isdst` the declarations leave indeterminate, and with the
  loop that prints the table; `calculate_tot_dist_tm_no_dst` relates the two, and
  `while_loop_tm_same_track` does for everything that is not a time.
* `ieee_div` gives the value of a division, and that value is the same with or without a
  test of the divisor before it.  The ghost variable `divisions` of `loop_body_tm` holds
  the operands of the divisions that were evaluated.
-/

namespace GPSAnalysis

/-! ## Data model -/

/-- The node structure stores paths (`struct node`); `timeString` is held as the second
count that the text of the time denotes. -/
structure node where
  lat : ℝ
  lon : ℝ
  ele : ℝ
  timeString : ℤ

/-- One row of the split table (`struct split`). -/
structure split where
  splitNo : ℤ
  pace : ℤ
  speed : Option ℝ
  elevDiff : ℝ

/-- The two values of the local `enum { FIRST, NOTFIRST }`. -/
inductive FirstNodeFlag where
  | FIRST
  | NOTFIRST
  deriving DecidableEq

/-- Ways in which the C program stops without finishing its report. -/
inductive Fault where
  | null_dereference
  | buffer_overflow
  deriving DecidableEq

/-! ## math.h, idealised -/

/-- The macro `D2R`, `M_PI / 180.0`, with `M_PI` the number `π`. -/
noncomputable def D2R : ℝ := Real.pi / 180.0

/-- The function `atan2 (y, x)` of math.h: the angle of the point `(x, y)`, in `(-π, π]`,
with `atan2 (0, 0) = 0`. -/
noncomputable def atan2 (y x : ℝ) : ℝ := Complex.arg ⟨x, y⟩

/-- The function `pow (x, y)` of math.h with a `double` exponent. -/
noncomputable def pow (x y : ℝ) : ℝ := x ^ y

/-- Division of two `double`s.  A non-zero divisor gives the quotient; a zero divisor gives
no real number (the hardware produces an infinity or a NaN and does not trap), which is
`none` here. -/
noncomputable def ieee_div (x y : ℝ) : Option ℝ :=
  if y = 0 then none else some (x / y)

/-! ## haversine_m -/

/-- The local variable `a` of `haversine_m`, as the source computes it. -/
noncomputable def haversine_a (lat1 lon1 lat2 lon2 : ℝ) : ℝ :=
  let dlong := (lon2 - lon1) * D2R
  let dlat := (lat2 - lat1) * D2R
  pow (Real.sin (dlat / 2.0)) 2.0
    + Real.cos (lat1 * D2R) * Real.cos (lat2 * D2R) * pow (Real.sin (dlong / 2.0)) 2.0

/-- Calculate distance between two points expressed as lat and long (`haversine_m`), in
exact arithmetic. -/
noncomputable def haversine_m (lat1 lon1 lat2 lon2 : ℝ) : ℝ :=
  let a := haversine_a lat1 lon1 lat2 lon2
  let c := 2.0 * atan2 (Real.sqrt a) (Real.sqrt (1.0 - a))
  let d := 6367137.0 * c
  d

/-- The haversine reference definition, written from the specification: angles in radians
from degrees, `a = sin² (dphi / 2) + cos phi1 * cos phi2 * sin² (dlam / 2)`, and the
distance `6367137 * 2 * atan2 (sqrt a, sqrt (1 - a))`. -/
noncomputable def haversine_reference (lat1 lon1 lat2 lon2 : ℝ) : ℝ :=
  let phi1 := lat1 * (Real.pi / 180)
  let phi2 := lat2 * (Real.pi / 180)
  let dphi := (lat2 - lat1) * (Real.pi / 180)
  let dlam := (lon2 - lon1) * (Real.pi / 180)
  let a := Real.sin (dphi / 2) ^ 2 + Real.cos phi1 * Real.cos phi2 * Real.sin (dlam / 2) ^ 2
  6367137 * 2 * atan2 (Real.sqrt a) (Real.sqrt (1 - a))

/-- Two points are antipodal: opposite latitudes, and either longitudes half a turn apart or
both points at the poles. -/
def antipodal (lat1 lon1 lat2 lon2 : ℝ) : Prop :=
  lat2 = -lat1 ∧ (lon2 - lon1 = 180 ∨ lon2 - lon1 = -180 ∨ lat1 = 90 ∨ lat1 = -90)

/-! ## The split list -/

/-- Create the list to be used to store the data (`create_splits`): the list of one record. -/
def create_splits (splitNo : ℤ) (pace : ℤ) (speed : Option ℝ) (elevDiff : ℝ) : List split :=
  [{ splitNo := splitNo, pace := pace, speed := speed, elevDiff := elevDiff }]

/-- Add a record at the end of the split list (`add_to_splits_list`). -/
def add_to_splits_list (headSplit : List split) (splitNo : ℤ) (pace : ℤ) (speed : Option ℝ)
    (elevDiff : ℝ) : List split :=
  match headSplit with
  | [] => create_splits splitNo pace speed elevDiff
  | _ :: _ =>
    headSplit ++ [{ splitNo := splitNo, pace := pace, speed := speed, elevDiff := elevDiff }]

/-! ## calculate_tot_dist -/

/-- The local variables of `calculate_tot_dist` that the `while` loop reads and writes,
with the global split list.  `splitLens` is a ghost variable: the value of `splitLen` at
each call of `add_to_splits_list`, in order; the C record does not store it. -/
structure Locals where
  firstNodeFlag : FirstNodeFlag
  pathLen : ℝ
  latPrev : ℝ
  lonPrev : ℝ
  startTime : ℤ
  splitNo : ℤ
  splitLen : ℝ
  startElevationSplit : ℝ
  startTimeSplit : ℤ
  headSplit : List split
  splitLens : List ℝ

/-- The values at the declarations of `calculate_tot_dist`.  The variables that C leaves
uninitialised are written by the first pass of the loop before they are read; they are
`0` here. -/
def Locals.init : Locals :=
  { firstNodeFlag := FirstNodeFlag.FIRST
    pathLen := 0.0
    latPrev := 0
    lonPrev := 0
    startTime := 0
    splitNo := 0
    splitLen := 0.0
    startElevationSplit := 0
    startTimeSplit := 0
    headSplit := []
    splitLens := [] }

/-- One pass of the body of `while ( ptr != NULL )`, for the node `ptr` whose successors
are `next`, with `mktime` taken to return the second count of the time string
(`loop_body_tm` has the `struct tm` locals). -/
noncomputable def loop_body (s : Locals) (ptr : node) (next : List node) : Locals :=
  let s1 : Locals :=
    if s.firstNodeFlag = FirstNodeFlag.FIRST then
      { s with
        startTime := ptr.timeString
        startTimeSplit := ptr.timeString
        startElevationSplit := ptr.ele
        firstNodeFlag := FirstNodeFlag.NOTFIRST }
    else
      let distBetwPoints := haversine_m s.latPrev s.lonPrev ptr.lat ptr.lon
      let pathLen := s.pathLen + distBetwPoints
      let splitLen := s.splitLen + distBetwPoints
      if splitLen ≥ 1000.0 ∨ next.isEmpty then
        let splitNo := s.splitNo + 1
        let finishTimeSplit := ptr.timeString
        let averagePaceSplit : ℤ := finishTimeSplit - s.startTimeSplit
        let finishElevationSplit := ptr.ele
        { s with
          pathLen := pathLen
          splitNo := splitNo
          headSplit := add_to_splits_list s.headSplit splitNo averagePaceSplit
            (ieee_div (splitLen * 3.6) (averagePaceSplit : ℝ))
            (finishElevationSplit - s.startElevationSplit)
          splitLens := s.splitLens ++ [splitLen]
          splitLen := 0.0
          startElevationSplit := finishElevationSplit
          startTimeSplit := finishTimeSplit }
      else
        { s with pathLen := pathLen, splitLen := splitLen }
  { s1 with latPrev := ptr.lat, lonPrev := ptr.lon }

/-- The loop `while ( ptr != NULL )` from the node list `ptr`. -/
noncomputable def while_loop : Locals → List node → Locals
  | s, [] => s
  | s, ptr :: next => while_loop (loop_body s ptr next) next

/-- What `calculate_tot_dist` prints: the overall statistics and the split table (with the
ghost list of the split lengths at closure). -/
structure Report where
  pathLen : ℝ
  elapsedTime : ℤ
  averagePace : Option ℝ
  splits : List split
  splitLens : List ℝ

/-- Calculate the total length of the track and print out the statistics
(`calculate_tot_dist`), for the node list `head`, up to the overall statistics, with
`mktime` taken to return the second count of the time string (`calculate_tot_dist_tm` has
the `struct tm` locals and the loop that prints the table).  After the loop the function
reads `curr -> timeString`; with no node `curr` is `NULL` and the read faults. -/
noncomputable def calculate_tot_dist (head : List node) : Except Fault Report :=
  let s := while_loop Locals.init head
  match head.getLast? with
  | none => Except.error Fault.null_dereference
  | some curr =>
    let elapsedTime : ℤ := curr.timeString - s.startTime
    let averagePace := (ieee_div ((elapsedTime : ℝ) * 50.0) s.pathLen).map (fun q => q / 3.0)
    Except.ok
      { pathLen := s.pathLen
        elapsedTime := elapsedTime
        averagePace := averagePace
        splits := s.headSplit
        splitLens := s.splitLens }

/-- The distances between consecutive points of a track: entry `i` is the haversine
distance from point `i` to point `i + 1`. -/
noncomputable def consecutive_distances (track : List node) : List ℝ :=
  List.zipWith (fun p q => haversine_m p.lat p.lon q.lat q.lon) track track.tail


/-- The distances walked from the point `(lat, lon)` through the nodes of `l` in order: each
entry is measured from the point just before it. -/
noncomputable def legs (lat lon : ℝ) : List node → List ℝ
  | [] => []
  | p :: l => haversine_m lat lon p.lat p.lon :: legs p.lat p.lon l

/-- The longitude, in degrees, that lies 1250 m east of longitude 0 on the equator. -/
noncomputable def lon_1250 : ℝ := 1250 / (6367137 * (Real.pi / 180))

/-- The point of the equator at longitude 0, at time 0. -/
def point_a : node := { lat := 0, lon := 0, ele := 0, timeString := 0 }

/-- The point of the equator 1250 m east of `point_a`, ten minutes later. -/
noncomputable def point_b : node := { lat := 0, lon := lon_1250, ele := 0, timeString := 600 }

/-- The point of the equator 1250 m east of `point_b`, ten minutes later. -/
noncomputable def point_c : node :=
  { lat := 0, lon := 2 * lon_1250, ele := 0, timeString := 1200 }

/-- Three points on the equator, 1250 m apart: a track of 2500 m. -/
noncomputable def track_2500 : List node := [point_a, point_b, point_c]

/-- The numbering invariant: the records so far carry the numbers `1, 2, ...` in order and
`splitNo` counts them. -/
def numbered (s : Locals) : Prop :=
  s.headSplit.map split.splitNo = (List.range' 1 s.headSplit.length).map (fun k : ℕ => (k : ℤ))
    ∧ s.splitNo = s.headSplit.length

/-- The points at which a split closes, by the rule of the specification: walking from
`(lat, lon)` with `splitLen` already accumulated, the distance to each point is added, and
the point closes a split when the accumulated distance is at least 1000 m or the point is
the last one; the accumulated distance then starts again from 0. -/
noncomputable def closing_points (splitLen lat lon : ℝ) : List node → List node
  | [] => []
  | p :: next =>
    if 1000 ≤ splitLen + haversine_m lat lon p.lat p.lon ∨ next.isEmpty then
      p :: closing_points 0 p.lat p.lon next
    else
      closing_points (splitLen + haversine_m lat lon p.lat p.lon) p.lat p.lon next

/-- The differences `finish - start` along a list of finishing values, where each start is
the finishing value before it and the first start is `start`. -/
def deltas {α : Type} [Sub α] (start : α) : List α → List α
  | [] => []
  | x :: xs => (x - start) :: deltas x xs

/-- The value that a 32-bit two's-complement `int` holds for the integer `x`, as in the
casts `(int) (...)` of `sec_to_clock_time`. -/
def to_int (x : ℤ) : ℤ := (x + 2147483648) % 4294967296 - 2147483648

/-- The text that `printf` writes for `%d`. -/
def print_d (n : ℤ) : String := toString n

/-- The text that `printf` writes for `%02d`: at least two characters, padded with `0` on
the left. -/
def print_02d (n : ℤ) : String :=
  if 0 ≤ n ∧ n < 10 then "0" ++ toString n else toString n

/-- Convert seconds to readable clock time (`sec_to_clock_time`).  `sprintf` writes the text
and a terminating NUL into the static array `time[10]`; a longer text overruns the array. -/
def sec_to_clock_time (sec : ℤ) : Except Fault String :=
  let minute := to_int (Int.tdiv sec 60)
  let second := to_int (Int.tmod sec 60)
  let time := print_d minute ++ ":" ++ print_02d second
  if time.length + 1 ≤ 10 then Except.ok time else Except.error Fault.buffer_overflow

/-- The two decimal digits of a number below 100, as text. -/
def two_digits (k : ℕ) : String := String.mk [Nat.digitChar (k / 10), Nat.digitChar (k % 10)]

/-- The reading of the speed formula in the specification: split distance in kilometres
over duration in hours. -/
noncomputable def km_per_hour (metres : ℝ) (seconds : ℤ) : ℝ :=
  (metres / 1000) / ((seconds : ℝ) / 3600)

/-- The speed invariant: every record holds the quotient of its split length, times 3.6, by
its duration, as `ieee_div` gives it. -/
def speed_recorded (sp : split) (len : ℝ) : Prop :=
  sp.speed = ieee_div (len * 3.6) (sp.pace : ℝ)

/-- The accounting invariant of the loop: the total distance is what the closed splits hold
plus what the open split has accumulated, and no length is negative. -/
def accounted (s : Locals) : Prop :=
  s.pathLen = s.splitLens.sum + s.splitLen ∧ 0 ≤ s.splitLen ∧ ∀ x ∈ s.splitLens, (0 : ℝ) ≤ x

/-! ## calculate_tot_dist with the `struct tm` locals and the print loop

`loop_body` and `calculate_tot_dist` above take the time of a node as the integer
`timeString` and stop before the table is printed.  The definitions below follow the source
further: the four `struct tm` locals with their `tm_isdst`, which the declarations leave
uninitialised and `mktime` reads, and the loop that prints every row through
`sec_to_clock_time`. -/

/-- The type `struct tm` as far as the program uses it.  `clock` stands for the fields of
date and time that `strptime` writes, held as the second count that they denote;
`tm_isdst` is the daylight saving flag, which `strptime` does not write for the format
`%Y-%m-%dT%TZ`. -/
structure tm where
  clock : ℤ
  tm_isdst : ℤ

/-- The values of `tm_isdst` that the declarations `struct tm startTime, finishTime;` and
`struct tm startTimeSplit, finishTimeSplit;` leave indeterminate and that `mktime` reads.
(`startTimeSplit` is assigned from `startTime` before it is read.) -/
structure Indeterminate where
  startTime_isdst : ℤ
  finishTimeSplit_isdst : ℤ
  finishTime_isdst : ℤ

/-- The call `strptime (timeString, "%Y-%m-%dT%TZ", &x)`: the fields of date and time are
written, `tm_isdst` keeps the value it had. -/
def strptime (timeString : ℤ) (x : tm) : tm := { x with clock := timeString }

/-- The call `mktime (&x)` in a time zone without daylight saving time, as glibc computes
it: a positive `tm_isdst` says that the broken-down time is in daylight saving time, so the
second count is one hour less than the fields denote; the structure is normalised in
place.  The result is the second count with the normalised structure. -/
def mktime (x : tm) : ℤ × tm :=
  if 0 < x.tm_isdst then (x.clock - 3600, { clock := x.clock - 3600, tm_isdst := 0 })
  else (x.clock, { clock := x.clock, tm_isdst := 0 })

/-- The local variables of `calculate_tot_dist`, with the `struct tm` ones.  `splitLens` is
the ghost variable of `Locals`.  `divisions` is a second ghost variable: the dividend and
the divisor of every division `splitLen * 3.6 / (double) averagePaceSplit` that the loop has
evaluated, in order.  A division that a test of the divisor skipped would leave no entry;
the source has no such test. -/
structure Locals_tm where
  firstNodeFlag : FirstNodeFlag
  pathLen : ℝ
  latPrev : ℝ
  lonPrev : ℝ
  startTime : tm
  splitNo : ℤ
  splitLen : ℝ
  startElevationSplit : ℝ
  startTimeSplit : tm
  finishTimeSplit : tm
  headSplit : List split
  splitLens : List ℝ
  divisions : List (ℝ × ℝ)

/-- The values at the declarations of `calculate_tot_dist`, for the indeterminate values
`u`. -/
def Locals_tm.init (u : Indeterminate) : Locals_tm :=
  { firstNodeFlag := FirstNodeFlag.FIRST
    pathLen := 0.0
    latPrev := 0
    lonPrev := 0
    startTime := { clock := 0, tm_isdst := u.startTime_isdst }
    splitNo := 0
    splitLen := 0.0
    startElevationSplit := 0
    startTimeSplit := { clock := 0, tm_isdst := 0 }
    finishTimeSplit := { clock := 0, tm_isdst := u.finishTimeSplit_isdst }
    headSplit := []
    splitLens := []
    divisions := [] }

/-- One pass of the body of `while ( ptr != NULL )`, with the `struct tm` locals. -/
noncomputable def loop_body_tm (s : Locals_tm) (ptr : node) (next : List node) : Locals_tm :=
  let s1 : Locals_tm :=
    if s.firstNodeFlag = FirstNodeFlag.FIRST then
      let startTime := strptime ptr.timeString s.startTime
      { s with
        startTime := startTime
        startTimeSplit := startTime
        startElevationSplit := ptr.ele
        firstNodeFlag := FirstNodeFlag.NOTFIRST }
    else
      let distBetwPoints := haversine_m s.latPrev s.lonPrev ptr.lat ptr.lon
      let pathLen := s.pathLen + distBetwPoints
      let splitLen := s.splitLen + distBetwPoints
      if splitLen ≥ 1000.0 ∨ next.isEmpty then
        let splitNo := s.splitNo + 1
        let finishTimeSplit := strptime ptr.timeString s.finishTimeSplit
        let averagePaceSplit : ℤ := (mktime finishTimeSplit).1 - (mktime s.startTimeSplit).1
        let finishElevationSplit := ptr.ele
        { s with
          pathLen := pathLen
          splitNo := splitNo
          headSplit := add_to_splits_list s.headSplit splitNo averagePaceSplit
            (ieee_div (splitLen * 3.6) (averagePaceSplit : ℝ))
            (finishElevationSplit - s.startElevationSplit)
          splitLens := s.splitLens ++ [splitLen]
          divisions := s.divisions ++ [(splitLen * 3.6, (averagePaceSplit : ℝ))]
          splitLen := 0.0
          startElevationSplit := finishElevationSplit
          finishTimeSplit := (mktime finishTimeSplit).2
          startTimeSplit := (mktime finishTimeSplit).2 }
      else
        { s with pathLen := pathLen, splitLen := splitLen }
  { s1 with latPrev := ptr.lat, lonPrev := ptr.lon }

/-- The loop `while ( ptr != NULL )`, with the `struct tm` locals. -/
noncomputable def while_loop_tm : Locals_tm → List node → Locals_tm
  | s, [] => s
  | s, ptr :: next => while_loop_tm (loop_body_tm s ptr next) next

/-- The loop `while ( ptrSplit != NULL )` that prints the table: every row calls
`sec_to_clock_time` on the `pace` of its record.  The result is the texts of the column
`Pace m:s`. -/
def print_splits : List split → Except Fault (List String)
  | [] => Except.ok []
  | ptrSplit :: next =>
    match sec_to_clock_time ptrSplit.pace with
    | Except.error e => Except.error e
    | Except.ok time =>
      match print_splits next with
      | Except.error e => Except.error e
      | Except.ok rows => Except.ok (time :: rows)

/-- The function `calculate_tot_dist` to its end, for the indeterminate values `u` and the
node list `head`: the loop, the overall statistics (the read of `curr -> timeString` faults
when there is no node) and the table.  The result is the report with the texts of the
column `Pace m:s`. -/
noncomputable def calculate_tot_dist_tm (u : Indeterminate) (head : List node) :
    Except Fault (Report × List String) :=
  let s := while_loop_tm (Locals_tm.init u) head
  match head.getLast? with
  | none => Except.error Fault.null_dereference
  | some curr =>
    let finishTime := strptime curr.timeString { clock := 0, tm_isdst := u.finishTime_isdst }
    let elapsedTime : ℤ := (mktime finishTime).1 - (mktime s.startTime).1
    let averagePace := (ieee_div ((elapsedTime : ℝ) * 50.0) s.pathLen).map (fun q => q / 3.0)
    match print_splits s.headSplit with
    | Except.error e => Except.error e
    | Except.ok rows =>
      Except.ok
        ({ pathLen := s.pathLen
           elapsedTime := elapsedTime
           averagePace := averagePace
           splits := s.headSplit
           splitLens := s.splitLens }, rows)

/-- The locals of `calculate_tot_dist` with every `struct tm` read as its `clock`: the
locals of `loop_body`. -/
def Locals_tm.toLocals (s : Locals_tm) : Locals :=
  { firstNodeFlag := s.firstNodeFlag
    pathLen := s.pathLen
    latPrev := s.latPrev
    lonPrev := s.lonPrev
    startTime := s.startTime.clock
    splitNo := s.splitNo
    splitLen := s.splitLen
    startElevationSplit := s.startElevationSplit
    startTimeSplit := s.startTimeSplit.clock
    headSplit := s.headSplit
    splitLens := s.splitLens }

/-- No `struct tm` of the locals claims daylight saving time. -/
def Locals_tm.no_dst (s : Locals_tm) : Prop :=
  s.startTime.tm_isdst ≤ 0 ∧ s.startTimeSplit.tm_isdst ≤ 0 ∧ s.finishTimeSplit.tm_isdst ≤ 0

/-- The reading of the guard in the specification: the speed is left undefined when the
duration is 0, and is the split distance in kilometres over the duration in hours
otherwise. -/
noncomputable def guarded_speed (metres : ℝ) (seconds : ℤ) : Option ℝ :=
  if seconds = 0 then none else some (km_per_hour metres seconds)

/-- The locals with the `struct tm` ones and the locals of `loop_body` agree on everything
that is not a time: the flag, the distances, the previous point, the counter, the elevation
of the split start, and the number, the elevation change and the length of every record. -/
def Locals_tm.same_track (t : Locals_tm) (s : Locals) : Prop :=
  t.firstNodeFlag = s.firstNodeFlag ∧ t.pathLen = s.pathLen ∧ t.latPrev = s.latPrev
    ∧ t.lonPrev = s.lonPrev ∧ t.splitNo = s.splitNo ∧ t.splitLen = s.splitLen
    ∧ t.startElevationSplit = s.startElevationSplit
    ∧ t.headSplit.map split.splitNo = s.headSplit.map split.splitNo
    ∧ t.headSplit.map split.elevDiff = s.headSplit.map split.elevDiff
    ∧ t.splitLens = s.splitLens

/-- The four equator points 0.009 degrees apart, the last two at the same second: every
leg is longer than 1000 m, so each of the last three points closes a split, and the third
split starts and closes at second 120. -/
def track_zero_duration : List node :=
  [{ lat := 0, lon := 0, ele := 0, timeString := 0 },
   { lat := 0, lon := 0.009, ele := 0, timeString := 60 },
   { lat := 0, lon := 0.018, ele := 0, timeString := 120 },
   { lat := 0, lon := 0.027, ele := 0, timeString := 120 }]

end GPSAnalysis

/-! # SocialNetwork: the co-occurrence scan of `analyse_and_output`

A shallow embedding of the scan of `src/SocialNetwork/SocialNetwork.c`.  A list `lineList`
is a `List ℤ` of the `lineNo` fields in order, and a pointer into it is the rest of the
list from that node on.  Every `fprintf` writes one row, the two names; the embedding
records for each row the two line numbers that caused it. -/

namespace SocialNetwork

/-- The macro `CO_OCCURRENCE`: two names occurring within five lines of each other count as
a co-occurrence. -/
def CO_OCCURRENCE : ℤ := 5

/-- The largest value of a C `int`. -/
def INT_MAX : ℤ := 2147483647

/-- The value that a 32-bit two's-complement `int` holds for the integer `x`: `x` itself when
it is in range, wrapped around otherwise.  C leaves signed overflow undefined; the wrap is
what the usual builds compute. -/
def int_wrap (x : ℤ) : ℤ := (x + 2147483648) % 4294967296 - 2147483648

/-- The function `abs` of stdlib.h on an `int`. -/
def int_abs (x : ℤ) : ℤ := int_wrap |x|

/-- The line numbers that `get_line_numbers` appends for one name: `hits` holds, for each
line that `fgets` reads, the number of times `strstr` finds the name in it; every hit
appends the current value of the `int` counter `line`, which `line++` steps at each line
read. -/
def get_line_numbers (line : ℤ) : List ℕ → List ℤ
  | [] => []
  | hits :: rest =>
    List.replicate hits (int_wrap (line + 1)) ++ get_line_numbers (int_wrap (line + 1)) rest

/-- The inner loop `while ( second && (first -> lineNo + CO_OCCURRENCE > second -> lineNo) )`
of `analyse_and_output`, for the node of `first` with line number `firstLineNo`, from the
node `second`; the sum, the difference and `abs` are computed in `int`.  It returns
`secondFirstPair` and the rows written so far. -/
def inner_while (firstLineNo : ℤ) :
    List ℤ → Bool → List ℤ → List (ℤ × ℤ) → List ℤ × List (ℤ × ℤ)
  | [], _, secondFirstPair, rows => (secondFirstPair, rows)
  | lineNo :: next, firstPairForFirst, secondFirstPair, rows =>
    if int_wrap (firstLineNo + CO_OCCURRENCE) > lineNo then
      if int_abs (int_wrap (firstLineNo - lineNo)) < CO_OCCURRENCE then
        inner_while firstLineNo next true
          (if firstPairForFirst = false then lineNo :: next else secondFirstPair)
          (rows ++ [(firstLineNo, lineNo)])
      else
        inner_while firstLineNo next firstPairForFirst secondFirstPair rows
    else
      (secondFirstPair, rows)

/-- The loop `while ( first )` of `analyse_and_output`: every node of `first` scans `second`
from `secondFirstPair` with `firstPairForFirst` reset to `false`. -/
def outer_while : List ℤ → List ℤ → List (ℤ × ℤ) → List (ℤ × ℤ)
  | [], _, rows => rows
  | lineNo :: next, secondFirstPair, rows =>
    outer_while next
      (inner_while lineNo secondFirstPair false secondFirstPair rows).1
      (inner_while lineNo secondFirstPair false secondFirstPair rows).2

/-- The work of `analyse_and_output` for one pair of names `i < j` with the line lists
`lineList_i` and `lineList_j`: nothing when either list is `NULL`, else the scan with
`secondFirstPair` initialised by the first node of the second list. -/
def analyse_pair (lineList_i lineList_j : List ℤ) : List (ℤ × ℤ) :=
  match lineList_i with
  | [] => []
  | _ :: _ =>
    match lineList_j with
    | [] => []
    | _ :: _ => outer_while lineList_i lineList_j []

/-- The naive double loop of the claim: one row for every pair of an occurrence `a` of the
first name and an occurrence `b` of the second with `|a - b| < CO_OCCURRENCE`, in the order
of the two lists. -/
def naive_double_loop (A B : List ℤ) : List (ℤ × ℤ) :=
  (List.product A B).filter (fun ab => decide (|ab.1 - ab.2| < CO_OCCURRENCE))

end SocialNetwork

namespace GPSAnalysis

/-! ## Facts about the idealised math.h functions -/

theorem pow_two_eq_sq (x : ℝ) : pow x 2 = x ^ 2 := by
  rw [pow, Real.rpow_two]

theorem haversine_a_eq (lat1 lon1 lat2 lon2 : ℝ) :
    haversine_a lat1 lon1 lat2 lon2
      = Real.sin ((lat2 - lat1) * (Real.pi / 180) / 2) ^ 2
        + Real.cos (lat1 * (Real.pi / 180)) * Real.cos (lat2 * (Real.pi / 180))
          * Real.sin ((lon2 - lon1) * (Real.pi / 180) / 2) ^ 2 := by
  have h2 : (2.0 : ℝ) = 2 := by norm_num
  have h180 : (180.0 : ℝ) = 180 := by norm_num
  simp only [haversine_a, pow_two_eq_sq, D2R, h2, h180]

theorem haversine_m_eq (lat1 lon1 lat2 lon2 : ℝ) :
    haversine_m lat1 lon1 lat2 lon2
      = 6367137 * (2 * atan2 (Real.sqrt (haversine_a lat1 lon1 lat2 lon2))
          (Real.sqrt (1 - haversine_a lat1 lon1 lat2 lon2))) := by
  have h2 : (2.0 : ℝ) = 2 := by norm_num
  have h1 : (1.0 : ℝ) = 1 := by norm_num
  have hR : (6367137.0 : ℝ) = 6367137 := by norm_num
  simp only [haversine_m, h2, h1, hR]

theorem atan2_nonneg {y x : ℝ} (hy : 0 ≤ y) : 0 ≤ atan2 y x := by
  unfold atan2
  rw [Complex.arg_nonneg_iff]
  exact hy

theorem atan2_le_pi_div_two {y x : ℝ} (hx : 0 ≤ x) : atan2 y x ≤ Real.pi / 2 := by
  unfold atan2
  rw [Complex.arg_le_pi_div_two_iff]
  exact Or.inl hx

theorem atan2_zero_one : atan2 0 1 = 0 := by
  unfold atan2
  have h : (⟨1, 0⟩ : ℂ) = 1 := rfl
  rw [h, Complex.arg_one]

theorem atan2_one_zero : atan2 1 0 = Real.pi / 2 := by
  unfold atan2
  have h : (⟨0, 1⟩ : ℂ) = Complex.I := rfl
  rw [h, Complex.arg_I]

theorem atan2_sin_cos {t : ℝ} (h : t ∈ Set.Ioc (-Real.pi) Real.pi) :
    atan2 (Real.sin t) (Real.cos t) = t := by
  unfold atan2
  have e : (⟨Real.cos t, Real.sin t⟩ : ℂ) = Complex.cos t + Complex.sin t * Complex.I := by
    apply Complex.ext <;> simp [Complex.cos_ofReal_re, Complex.sin_ofReal_re]
  rw [e, Complex.arg_cos_add_sin_mul_I h]

theorem haversine_a_nonneg_of_lat {lat1 lat2 : ℝ} (lon1 lon2 : ℝ)
    (h1 : -90 ≤ lat1 ∧ lat1 ≤ 90) (h2 : -90 ≤ lat2 ∧ lat2 ≤ 90) :
    0 ≤ haversine_a lat1 lon1 lat2 lon2 := by
  rw [haversine_a_eq]
  have hp := Real.pi_pos
  have c1 : 0 ≤ Real.cos (lat1 * (Real.pi / 180)) := by
    apply Real.cos_nonneg_of_neg_pi_div_two_le_of_le <;> nlinarith [h1.1, h1.2]
  have c2 : 0 ≤ Real.cos (lat2 * (Real.pi / 180)) := by
    apply Real.cos_nonneg_of_neg_pi_div_two_le_of_le <;> nlinarith [h2.1, h2.2]
  positivity

theorem haversine_a_le_one_of_lat {lat1 lat2 : ℝ} (lon1 lon2 : ℝ)
    (h1 : -90 ≤ lat1 ∧ lat1 ≤ 90) (h2 : -90 ≤ lat2 ∧ lat2 ≤ 90) :
    haversine_a lat1 lon1 lat2 lon2 ≤ 1 := by
  rw [haversine_a_eq]
  have hp := Real.pi_pos
  have c1 : 0 ≤ Real.cos (lat1 * (Real.pi / 180)) := by
    apply Real.cos_nonneg_of_neg_pi_div_two_le_of_le <;> nlinarith [h1.1, h1.2]
  have c2 : 0 ≤ Real.cos (lat2 * (Real.pi / 180)) := by
    apply Real.cos_nonneg_of_neg_pi_div_two_le_of_le <;> nlinarith [h2.1, h2.2]
  set p1 := lat1 * (Real.pi / 180) with hp1
  set p2 := lat2 * (Real.pi / 180) with hp2
  have e : (lat2 - lat1) * (Real.pi / 180) / 2 = (p2 - p1) / 2 := by
    rw [hp1, hp2]; ring
  rw [e]
  have hs : Real.sin ((lon2 - lon1) * (Real.pi / 180) / 2) ^ 2 ≤ 1 := Real.sin_sq_le_one _
  have hd : Real.sin ((p2 - p1) / 2) ^ 2 = (1 - Real.cos (p2 - p1)) / 2 := by
    have := Real.cos_sq_add_sin_sq ((p2 - p1) / 2)
    have hc : Real.cos (p2 - p1) = 2 * Real.cos ((p2 - p1) / 2) ^ 2 - 1 := by
      rw [← Real.cos_two_mul]; congr 1; ring
    linarith
  have hsub : Real.cos (p2 - p1) = Real.cos p2 * Real.cos p1 + Real.sin p2 * Real.sin p1 :=
    Real.cos_sub p2 p1
  have hadd : Real.cos (p2 + p1) = Real.cos p2 * Real.cos p1 - Real.sin p2 * Real.sin p1 :=
    Real.cos_add p2 p1
  have hle : Real.cos (p2 + p1) ≤ 1 := Real.cos_le_one _
  have hm : Real.cos p1 * Real.cos p2 * Real.sin ((lon2 - lon1) * (Real.pi / 180) / 2) ^ 2
      ≤ Real.cos p1 * Real.cos p2 := by
    have := mul_le_mul_of_nonneg_left hs (mul_nonneg c1 c2)
    linarith
  rw [hd]
  nlinarith

theorem haversine_a_self (lat lon : ℝ) : haversine_a lat lon lat lon = 0 := by
  rw [haversine_a_eq]
  simp

theorem haversine_m_same_point (lat lon : ℝ) : haversine_m lat lon lat lon = 0 := by
  rw [haversine_m_eq, haversine_a_self]
  simp [atan2_zero_one]

theorem haversine_a_comm (lat1 lon1 lat2 lon2 : ℝ) :
    haversine_a lat1 lon1 lat2 lon2 = haversine_a lat2 lon2 lat1 lon1 := by
  rw [haversine_a_eq, haversine_a_eq]
  have e1 : (lat1 - lat2) * (Real.pi / 180) / 2 = -((lat2 - lat1) * (Real.pi / 180) / 2) := by
    ring
  have e2 : (lon1 - lon2) * (Real.pi / 180) / 2 = -((lon2 - lon1) * (Real.pi / 180) / 2) := by
    ring
  rw [e1, e2, Real.sin_neg, Real.sin_neg]
  ring

theorem haversine_a_of_antipodal {lat1 lon1 lat2 lon2 : ℝ}
    (h : antipodal lat1 lon1 lat2 lon2) : haversine_a lat1 lon1 lat2 lon2 = 1 := by
  obtain ⟨hl, hcases⟩ := h
  rw [haversine_a_eq, hl]
  have e1 : (-lat1 - lat1) * (Real.pi / 180) / 2 = -(lat1 * (Real.pi / 180)) := by ring
  have e2 : -lat1 * (Real.pi / 180) = -(lat1 * (Real.pi / 180)) := by ring
  rw [e1, e2, Real.sin_neg, Real.cos_neg]
  have hsc := Real.sin_sq_add_cos_sq (lat1 * (Real.pi / 180))
  rcases hcases with h180 | h180 | h90 | h90
  · have e3 : (lon2 - lon1) * (Real.pi / 180) / 2 = Real.pi / 2 := by rw [h180]; ring
    rw [e3, Real.sin_pi_div_two]
    nlinarith
  · have e3 : (lon2 - lon1) * (Real.pi / 180) / 2 = -(Real.pi / 2) := by rw [h180]; ring
    rw [e3, Real.sin_neg, Real.sin_pi_div_two]
    nlinarith
  · have e3 : lat1 * (Real.pi / 180) = Real.pi / 2 := by rw [h90]; ring
    rw [e3, Real.sin_pi_div_two, Real.cos_pi_div_two]
    ring
  · have e3 : lat1 * (Real.pi / 180) = -(Real.pi / 2) := by rw [h90]; ring
    rw [e3, Real.sin_neg, Real.cos_neg, Real.sin_pi_div_two, Real.cos_pi_div_two]
    ring

theorem haversine_m_nonneg (lat1 lon1 lat2 lon2 : ℝ) : 0 ≤ haversine_m lat1 lon1 lat2 lon2 := by
  rw [haversine_m_eq]
  have := atan2_nonneg (x := Real.sqrt (1 - haversine_a lat1 lon1 lat2 lon2))
    (Real.sqrt_nonneg (haversine_a lat1 lon1 lat2 lon2))
  positivity

theorem haversine_m_le (lat1 lon1 lat2 lon2 : ℝ) :
    haversine_m lat1 lon1 lat2 lon2 ≤ Real.pi * 6367137 := by
  rw [haversine_m_eq]
  have := atan2_le_pi_div_two (y := Real.sqrt (haversine_a lat1 lon1 lat2 lon2))
    (Real.sqrt_nonneg (1 - haversine_a lat1 lon1 lat2 lon2))
  linarith

/-- Along the equator, eastwards over at most half a turn, the distance is the radius times
the longitude difference in radians. -/
theorem haversine_m_equator {lon1 lon2 : ℝ} (h0 : 0 ≤ lon2 - lon1) (h1 : lon2 - lon1 ≤ 180) :
    haversine_m 0 lon1 0 lon2 = 6367137 * ((lon2 - lon1) * (Real.pi / 180)) := by
  have hp := Real.pi_pos
  set t := (lon2 - lon1) * (Real.pi / 180) / 2 with ht
  have ht0 : 0 ≤ t := by rw [ht]; positivity
  have ht1 : t ≤ Real.pi / 2 := by rw [ht]; nlinarith
  have ha : haversine_a 0 lon1 0 lon2 = Real.sin t ^ 2 := by
    rw [haversine_a_eq]; simp [ht]
  have hs : 0 ≤ Real.sin t := Real.sin_nonneg_of_nonneg_of_le_pi ht0 (by linarith)
  have hc : 0 ≤ Real.cos t := Real.cos_nonneg_of_neg_pi_div_two_le_of_le (by linarith) ht1
  have h1a : 1 - Real.sin t ^ 2 = Real.cos t ^ 2 := by
    have := Real.sin_sq_add_cos_sq t; linarith
  rw [haversine_m_eq, ha, h1a, Real.sqrt_sq hs, Real.sqrt_sq hc,
    atan2_sin_cos ⟨by linarith, by linarith⟩, ht]
  ring

/-! ## haversine_m: the claims -/

/-- C5: `haversine_m` equals the haversine reference definition over the reals: inputs in
degrees converted by `pi / 180`, `a = sin² (dphi / 2) + cos phi1 * cos phi2 * sin² (dlam / 2)`
and the result `6367137 * 2 * atan2 (sqrt a, sqrt (1 - a))`. -/
theorem haversine_m_eq_reference (lat1 lon1 lat2 lon2 : ℝ) :
    haversine_m lat1 lon1 lat2 lon2 = haversine_reference lat1 lon1 lat2 lon2 := by
  rw [haversine_m_eq, haversine_a_eq]
  simp only [haversine_reference]
  ring

/-- C7: the distance from a point to itself is `0`, for every latitude and longitude. -/
theorem haversine_m_self (lat lon : ℝ) : haversine_m lat lon lat lon = 0 := by
  rw [haversine_m_eq, haversine_a_self]
  simp [atan2_zero_one]

/-- C8: `haversine_m` is symmetric in its two points, for all coordinates. -/
theorem haversine_m_comm (lat1 lon1 lat2 lon2 : ℝ) :
    haversine_m lat1 lon1 lat2 lon2 = haversine_m lat2 lon2 lat1 lon1 := by
  rw [haversine_m_eq, haversine_m_eq, haversine_a_comm]

/-! ## The loop of calculate_tot_dist, pass by pass -/

theorem add_to_splits_list_eq (l : List split) (n pace : ℤ) (speed : Option ℝ) (e : ℝ) :
    add_to_splits_list l n pace speed e
      = l ++ [{ splitNo := n, pace := pace, speed := speed, elevDiff := e }] := by
  cases l <;> rfl

theorem loop_body_first (s : Locals) (p : node) (next : List node)
    (h : s.firstNodeFlag = FirstNodeFlag.FIRST) :
    loop_body s p next =
      { s with
        startTime := p.timeString
        startTimeSplit := p.timeString
        startElevationSplit := p.ele
        firstNodeFlag := FirstNodeFlag.NOTFIRST
        latPrev := p.lat
        lonPrev := p.lon } := by
  simp [loop_body, h]

theorem loop_body_close (s : Locals) (p : node) (next : List node)
    (h : s.firstNodeFlag = FirstNodeFlag.NOTFIRST)
    (hc : 1000 ≤ s.splitLen + haversine_m s.latPrev s.lonPrev p.lat p.lon ∨ next = []) :
    loop_body s p next =
      { s with
        pathLen := s.pathLen + haversine_m s.latPrev s.lonPrev p.lat p.lon
        splitNo := s.splitNo + 1
        headSplit := s.headSplit ++
          [{ splitNo := s.splitNo + 1
             pace := p.timeString - s.startTimeSplit
             speed := ieee_div ((s.splitLen + haversine_m s.latPrev s.lonPrev p.lat p.lon) * 3.6)
               ((p.timeString - s.startTimeSplit : ℤ) : ℝ)
             elevDiff := p.ele - s.startElevationSplit }]
        splitLens := s.splitLens ++ [s.splitLen + haversine_m s.latPrev s.lonPrev p.lat p.lon]
        splitLen := 0
        startElevationSplit := p.ele
        startTimeSplit := p.timeString
        latPrev := p.lat
        lonPrev := p.lon } := by
  have h1000 : (1000.0 : ℝ) = 1000 := by norm_num
  have hc2 : s.splitLen + haversine_m s.latPrev s.lonPrev p.lat p.lon ≥ 1000.0
      ∨ next.isEmpty = true := by
    rw [h1000, List.isEmpty_iff]; exact hc
  have h0 : (0.0 : ℝ) = 0 := by norm_num
  simp only [loop_body, h, if_pos hc2, add_to_splits_list_eq, h0]
  simp

theorem loop_body_open (s : Locals) (p : node) (next : List node)
    (h : s.firstNodeFlag = FirstNodeFlag.NOTFIRST)
    (hlt : s.splitLen + haversine_m s.latPrev s.lonPrev p.lat p.lon < 1000) (hn : next ≠ []) :
    loop_body s p next =
      { s with
        pathLen := s.pathLen + haversine_m s.latPrev s.lonPrev p.lat p.lon
        splitLen := s.splitLen + haversine_m s.latPrev s.lonPrev p.lat p.lon
        latPrev := p.lat
        lonPrev := p.lon } := by
  have h1000 : (1000.0 : ℝ) = 1000 := by norm_num
  have hc2 : ¬ (s.splitLen + haversine_m s.latPrev s.lonPrev p.lat p.lon ≥ 1000.0
      ∨ next.isEmpty = true) := by
    rw [h1000, List.isEmpty_iff]
    push_neg
    exact ⟨hlt, hn⟩
  simp only [loop_body, h, if_neg hc2]
  simp

/-! ## Invariants of the loop -/

theorem loop_body_flag (s : Locals) (p : node) (next : List node) :
    (loop_body s p next).firstNodeFlag = FirstNodeFlag.NOTFIRST := by
  cases hf : s.firstNodeFlag with
  | FIRST => rw [loop_body_first s p next hf]
  | NOTFIRST =>
    by_cases hc : 1000 ≤ s.splitLen + haversine_m s.latPrev s.lonPrev p.lat p.lon ∨ next = []
    · rw [loop_body_close s p next hf hc]; exact hf
    · push_neg at hc
      rw [loop_body_open s p next hf hc.1 hc.2]; exact hf

theorem while_loop_pathLen (l : List node) :
    ∀ s : Locals, s.firstNodeFlag = FirstNodeFlag.NOTFIRST →
      (while_loop s l).pathLen = s.pathLen + (legs s.latPrev s.lonPrev l).sum := by
  induction l with
  | nil => intro s _; simp [while_loop, legs]
  | cons p next ih =>
    intro s h
    rw [while_loop, ih _ (loop_body_flag s p next)]
    by_cases hc : 1000 ≤ s.splitLen + haversine_m s.latPrev s.lonPrev p.lat p.lon ∨ next = []
    · rw [loop_body_close s p next h hc]
      simp only [legs, List.sum_cons]
      ring
    · push_neg at hc
      rw [loop_body_open s p next h hc.1 hc.2]
      simp only [legs, List.sum_cons]
      ring

theorem while_loop_startTime (l : List node) :
    ∀ s : Locals, s.firstNodeFlag = FirstNodeFlag.NOTFIRST →
      (while_loop s l).startTime = s.startTime := by
  induction l with
  | nil => intro s _; rfl
  | cons p next ih =>
    intro s h
    rw [while_loop, ih _ (loop_body_flag s p next)]
    by_cases hc : 1000 ≤ s.splitLen + haversine_m s.latPrev s.lonPrev p.lat p.lon ∨ next = []
    · rw [loop_body_close s p next h hc]
    · push_neg at hc
      rw [loop_body_open s p next h hc.1 hc.2]

theorem numbered_loop_body (s : Locals) (p : node) (next : List node) (hs : numbered s) :
    numbered (loop_body s p next) := by
  cases hf : s.firstNodeFlag with
  | FIRST => rw [loop_body_first s p next hf]; exact hs
  | NOTFIRST =>
    by_cases hc : 1000 ≤ s.splitLen + haversine_m s.latPrev s.lonPrev p.lat p.lon ∨ next = []
    · rw [loop_body_close s p next hf hc]
      obtain ⟨h1, h2⟩ := hs
      refine ⟨?_, ?_⟩
      · simp only [List.map_append, List.length_append, List.length_singleton, List.map_cons,
          List.map_nil, h1, List.range'_1_concat, h2]
        congr 2
        push_cast
        ring
      · simp only [List.length_append, List.length_singleton, h2]
        push_cast
        ring
    · push_neg at hc
      rw [loop_body_open s p next hf hc.1 hc.2]
      exact hs

theorem numbered_while_loop (l : List node) :
    ∀ s : Locals, numbered s → numbered (while_loop s l) := by
  induction l with
  | nil => intro s hs; exact hs
  | cons p next ih => intro s hs; rw [while_loop]; exact ih _ (numbered_loop_body s p next hs)

theorem full_loop_body (s : Locals) (p : node) (next : List node) (hn : next ≠ [])
    (hs : ∀ x ∈ s.splitLens, (1000 : ℝ) ≤ x) :
    ∀ x ∈ (loop_body s p next).splitLens, (1000 : ℝ) ≤ x := by
  cases hf : s.firstNodeFlag with
  | FIRST => rw [loop_body_first s p next hf]; exact hs
  | NOTFIRST =>
    by_cases hc : 1000 ≤ s.splitLen + haversine_m s.latPrev s.lonPrev p.lat p.lon ∨ next = []
    · rw [loop_body_close s p next hf hc]
      intro x hx
      rcases List.mem_append.mp hx with hx | hx
      · exact hs x hx
      · rw [List.mem_singleton] at hx
        rcases hc with hc | hc
        · rw [hx]; exact hc
        · exact absurd hc hn
    · push_neg at hc
      rw [loop_body_open s p next hf hc.1 hc.2]
      exact hs

theorem full_dropLast_loop_body (s : Locals) (p : node)
    (hs : ∀ x ∈ s.splitLens, (1000 : ℝ) ≤ x) :
    ∀ x ∈ (loop_body s p []).splitLens.dropLast, (1000 : ℝ) ≤ x := by
  cases hf : s.firstNodeFlag with
  | FIRST =>
    rw [loop_body_first s p [] hf]
    intro x hx
    exact hs x (List.mem_of_mem_dropLast hx)
  | NOTFIRST =>
    rw [loop_body_close s p [] hf (Or.inr rfl)]
    intro x hx
    rw [List.dropLast_concat] at hx
    exact hs x hx

theorem full_dropLast_while_loop (l : List node) :
    ∀ s : Locals, (∀ x ∈ s.splitLens, (1000 : ℝ) ≤ x) →
      ∀ x ∈ (while_loop s l).splitLens.dropLast, (1000 : ℝ) ≤ x := by
  induction l with
  | nil => intro s hs x hx; exact hs x (List.mem_of_mem_dropLast hx)
  | cons p next ih =>
    intro s hs
    rw [while_loop]
    cases next with
    | nil => exact full_dropLast_loop_body s p hs
    | cons q rest => exact ih _ (full_loop_body s p (q :: rest) (List.cons_ne_nil q rest) hs)

theorem splitLens_length_loop_body (s : Locals) (p : node) (next : List node)
    (hs : s.splitLens.length = s.headSplit.length) :
    (loop_body s p next).splitLens.length = (loop_body s p next).headSplit.length := by
  cases hf : s.firstNodeFlag with
  | FIRST => rw [loop_body_first s p next hf]; exact hs
  | NOTFIRST =>
    by_cases hc : 1000 ≤ s.splitLen + haversine_m s.latPrev s.lonPrev p.lat p.lon ∨ next = []
    · rw [loop_body_close s p next hf hc]
      simp only [List.length_append, List.length_singleton, hs]
    · push_neg at hc
      rw [loop_body_open s p next hf hc.1 hc.2]
      exact hs

theorem splitLens_length_while_loop (l : List node) :
    ∀ s : Locals, s.splitLens.length = s.headSplit.length →
      (while_loop s l).splitLens.length = (while_loop s l).headSplit.length := by
  induction l with
  | nil => intro s hs; exact hs
  | cons p next ih =>
    intro s hs; rw [while_loop]; exact ih _ (splitLens_length_loop_body s p next hs)

theorem while_loop_pace_sum (l : List node) :
    ∀ (hl : l ≠ []) (s : Locals), s.firstNodeFlag = FirstNodeFlag.NOTFIRST →
      ((while_loop s l).headSplit.map split.pace).sum
        = (s.headSplit.map split.pace).sum + ((l.getLast hl).timeString - s.startTimeSplit) := by
  induction l with
  | nil => intro hl; exact absurd rfl hl
  | cons p next ih =>
    intro hl s h
    rw [while_loop]
    cases next with
    | nil =>
      rw [while_loop, loop_body_close s p [] h (Or.inr rfl)]
      simp
    | cons q rest =>
      rw [ih (List.cons_ne_nil q rest) _ (loop_body_flag s p (q :: rest)),
        List.getLast_cons (List.cons_ne_nil q rest)]
      by_cases hc : 1000 ≤ s.splitLen + haversine_m s.latPrev s.lonPrev p.lat p.lon
          ∨ q :: rest = []
      · rw [loop_body_close s p (q :: rest) h hc]
        simp only [List.map_append, List.map_cons, List.map_nil, List.sum_append,
          List.sum_cons, List.sum_nil]
        ring
      · push_neg at hc
        rw [loop_body_open s p (q :: rest) h hc.1 hc.2]

/-! ## calculate_tot_dist as a whole -/

theorem init_eq :
    Locals.init =
      { firstNodeFlag := FirstNodeFlag.FIRST, pathLen := 0, latPrev := 0, lonPrev := 0,
        startTime := 0, splitNo := 0, splitLen := 0, startElevationSplit := 0,
        startTimeSplit := 0, headSplit := [], splitLens := [] } := by
  have h0 : (0.0 : ℝ) = 0 := by norm_num
  simp only [Locals.init, h0]

theorem legs_eq_zipWith (l : List node) :
    ∀ p : node, legs p.lat p.lon l
      = List.zipWith (fun a b => haversine_m a.lat a.lon b.lat b.lon) (p :: l) l := by
  induction l with
  | nil => intro p; rfl
  | cons q rest ih => intro p; simp only [legs, List.zipWith_cons_cons, ih q]

theorem calculate_tot_dist_cons (p : node) (rest : List node) :
    calculate_tot_dist (p :: rest) = Except.ok
      { pathLen := (while_loop Locals.init (p :: rest)).pathLen
        elapsedTime := ((p :: rest).getLast (List.cons_ne_nil p rest)).timeString - p.timeString
        averagePace :=
          (ieee_div
            (((((p :: rest).getLast (List.cons_ne_nil p rest)).timeString - p.timeString : ℤ) : ℝ)
              * 50.0)
            (while_loop Locals.init (p :: rest)).pathLen).map (fun q => q / 3.0)
        splits := (while_loop Locals.init (p :: rest)).headSplit
        splitLens := (while_loop Locals.init (p :: rest)).splitLens } := by
  have hst : (while_loop Locals.init (p :: rest)).startTime = p.timeString := by
    rw [while_loop, while_loop_startTime rest _ (loop_body_flag _ p rest),
      loop_body_first _ p rest rfl]
  simp only [calculate_tot_dist, List.getLast?_eq_getLast _ (List.cons_ne_nil p rest), hst]

theorem while_loop_init_pathLen (p : node) (rest : List node) :
    (while_loop Locals.init (p :: rest)).pathLen = (legs p.lat p.lon rest).sum := by
  rw [while_loop, while_loop_pathLen rest _ (loop_body_flag _ p rest),
    loop_body_first _ p rest rfl]
  simp [init_eq]

theorem while_loop_init_pace_sum (p : node) (rest : List node) :
    ((while_loop Locals.init (p :: rest)).headSplit.map split.pace).sum
      = ((p :: rest).getLast (List.cons_ne_nil p rest)).timeString - p.timeString := by
  rw [while_loop]
  cases rest with
  | nil => rw [while_loop, loop_body_first _ p [] rfl]; simp [Locals.init]
  | cons q rest =>
    rw [while_loop_pace_sum (q :: rest) (List.cons_ne_nil q rest) _ (loop_body_flag _ p _),
      loop_body_first _ p _ rfl, List.getLast_cons (List.cons_ne_nil q rest)]
    simp [Locals.init]

/-- The report on three points: the total is the sum of the two legs, and the first leg
alone decides whether the second point closes a split. -/
theorem three_point_report (p1 p2 p3 : node) :
    ∃ r, calculate_tot_dist [p1, p2, p3] = Except.ok r
      ∧ r.pathLen = haversine_m p1.lat p1.lon p2.lat p2.lon
          + haversine_m p2.lat p2.lon p3.lat p3.lon
      ∧ r.splits.length = r.splitLens.length
      ∧ r.splitLens =
          if 1000 ≤ haversine_m p1.lat p1.lon p2.lat p2.lon then
            [haversine_m p1.lat p1.lon p2.lat p2.lon, haversine_m p2.lat p2.lon p3.lat p3.lon]
          else
            [haversine_m p1.lat p1.lon p2.lat p2.lon
              + haversine_m p2.lat p2.lon p3.lat p3.lon] := by
  refine ⟨_, calculate_tot_dist_cons p1 [p2, p3], ?_, ?_, ?_⟩
  · simp only [while_loop_init_pathLen, legs, List.sum_cons, List.sum_nil]
    ring
  · exact (splitLens_length_while_loop _ _ rfl).symm
  · simp only [while_loop]
    rw [loop_body_first _ p1 _ rfl, init_eq]
    by_cases h : 1000 ≤ haversine_m p1.lat p1.lon p2.lat p2.lon
    · rw [loop_body_close _ p2 [p3] rfl (Or.inl (by simpa using h)),
        loop_body_close _ p3 [] rfl (Or.inr rfl)]
      simp [h]
    · rw [loop_body_open _ p2 [p3] rfl (by simpa using h) (List.cons_ne_nil _ _),
        loop_body_close _ p3 [] rfl (Or.inr rfl)]
      simp [h]

theorem lon_1250_bounds : 0 ≤ lon_1250 ∧ lon_1250 ≤ 180 := by
  have hp := Real.pi_gt_three
  unfold lon_1250
  constructor
  · positivity
  · rw [div_le_iff₀ (by positivity)]
    nlinarith

theorem lon_1250_mul : lon_1250 * (Real.pi / 180) = 1250 / 6367137 := by
  have hp := Real.pi_pos
  unfold lon_1250
  field_simp
  ring

theorem track_2500_legs :
    haversine_m point_a.lat point_a.lon point_b.lat point_b.lon = 1250
      ∧ haversine_m point_b.lat point_b.lon point_c.lat point_c.lon = 1250 := by
  obtain ⟨h0, h1⟩ := lon_1250_bounds
  simp only [point_a, point_b, point_c]
  constructor
  · rw [haversine_m_equator (by linarith) (by linarith), sub_zero, lon_1250_mul]
    norm_num
  · rw [haversine_m_equator (by linarith) (by linarith)]
    have e : 2 * lon_1250 - lon_1250 = lon_1250 := by ring
    rw [e, lon_1250_mul]
    norm_num

/-! ## calculate_tot_dist: the claims -/

/-- C1: for every track of at least two points the total distance `pathLen` is the sum of
the haversine distances between consecutive points: each delta is measured from the point
just before, and the first point contributes none. -/
theorem pathLen_eq_sum_of_consecutive (track : List node) (h : 2 ≤ track.length) :
    ∃ r, calculate_tot_dist track = Except.ok r
      ∧ r.pathLen
          = (List.zipWith (fun p q => haversine_m p.lat p.lon q.lat q.lon) track track.tail).sum := by
  cases track with
  | nil => simp at h
  | cons p rest =>
    refine ⟨_, calculate_tot_dist_cons p rest, ?_⟩
    simp only [while_loop_init_pathLen, legs_eq_zipWith, List.tail_cons]

/-- C1 on the three points of `track_2500`. -/
theorem pathLen_eq_sum_of_consecutive_witness :
    2 ≤ track_2500.length
      ∧ ∃ r, calculate_tot_dist track_2500 = Except.ok r
        ∧ r.pathLen
            = (List.zipWith (fun p q => haversine_m p.lat p.lon q.lat q.lon)
                track_2500 track_2500.tail).sum :=
  ⟨by simp [track_2500], pathLen_eq_sum_of_consecutive track_2500 (by simp [track_2500])⟩

/-- C2: every split emitted other than the last one closed with an accumulated split
distance of at least 1000 m; `splitLens` lists the value of `splitLen` at each closure, one
entry for each split record. -/
theorem splits_before_last_full (track : List node) (hne : track ≠ []) :
    ∃ r, calculate_tot_dist track = Except.ok r
      ∧ r.splitLens.length = r.splits.length
      ∧ ∀ x ∈ r.splitLens.dropLast, (1000 : ℝ) ≤ x := by
  cases track with
  | nil => exact absurd rfl hne
  | cons p rest =>
    refine ⟨_, calculate_tot_dist_cons p rest, ?_, ?_⟩
    · exact splitLens_length_while_loop _ _ rfl
    · exact full_dropLast_while_loop _ _ (fun x hx => absurd hx (List.not_mem_nil x))

/-- C2 on `track_2500`. -/
theorem splits_before_last_full_witness :
    track_2500 ≠ []
      ∧ ∃ r, calculate_tot_dist track_2500 = Except.ok r
        ∧ r.splitLens.length = r.splits.length
        ∧ ∀ x ∈ r.splitLens.dropLast, (1000 : ℝ) ≤ x :=
  ⟨by simp [track_2500], splits_before_last_full track_2500 (by simp [track_2500])⟩

/-- C4: the `splitNo` fields of the split records, in list order, are exactly
`1, 2, ..., N` for `N` the number of records. -/
theorem splitNo_contiguous (track : List node) (hne : track ≠ []) :
    ∃ r, calculate_tot_dist track = Except.ok r
      ∧ r.splits.map split.splitNo
          = (List.range' 1 r.splits.length).map (fun k : ℕ => (k : ℤ)) := by
  cases track with
  | nil => exact absurd rfl hne
  | cons p rest =>
    exact ⟨_, calculate_tot_dist_cons p rest,
      (numbered_while_loop (p :: rest) Locals.init ⟨rfl, rfl⟩).1⟩

/-- C4 on `track_2500`. -/
theorem splitNo_contiguous_witness :
    track_2500 ≠ []
      ∧ ∃ r, calculate_tot_dist track_2500 = Except.ok r
        ∧ r.splits.map split.splitNo
            = (List.range' 1 r.splits.length).map (fun k : ℕ => (k : ℤ)) :=
  ⟨by simp [track_2500], splitNo_contiguous track_2500 (by simp [track_2500])⟩

/-- C9: on a track of exactly one point the total distance is `0` and no split record is
emitted. -/
theorem single_point_track (p : node) :
    ∃ r, calculate_tot_dist [p] = Except.ok r ∧ r.pathLen = 0 ∧ r.splits = [] := by
  refine ⟨_, calculate_tot_dist_cons p [], ?_, ?_⟩
  · simp only [while_loop_init_pathLen, legs, List.sum_nil]
  · simp only [while_loop]
    rw [loop_body_first _ p [] rfl]
    rfl

/-- C10, as the code has it: on three points whose two consecutive distances add up to
2500 m, at most two splits are emitted, one for each point after the first at most.  When
the first leg is at least 1000 m there are two splits, closed at the lengths of the two
legs; otherwise there is one split of 2500 m. -/
theorem three_point_2500_splits (p1 p2 p3 : node)
    (hsum : haversine_m p1.lat p1.lon p2.lat p2.lon
      + haversine_m p2.lat p2.lon p3.lat p3.lon = 2500) :
    ∃ r, calculate_tot_dist [p1, p2, p3] = Except.ok r
      ∧ r.pathLen = 2500
      ∧ r.splits.length ≤ 2
      ∧ ((1000 ≤ haversine_m p1.lat p1.lon p2.lat p2.lon
            ∧ r.splits.length = 2
            ∧ r.splitLens = [haversine_m p1.lat p1.lon p2.lat p2.lon,
                haversine_m p2.lat p2.lon p3.lat p3.lon])
          ∨ (haversine_m p1.lat p1.lon p2.lat p2.lon < 1000
            ∧ r.splits.length = 1
            ∧ r.splitLens = [2500])) := by
  obtain ⟨r, hr, hp, hlen, hl⟩ := three_point_report p1 p2 p3
  refine ⟨r, hr, by rw [hp, hsum], ?_, ?_⟩
  · rw [hlen, hl]
    split_ifs <;> simp
  · by_cases h : 1000 ≤ haversine_m p1.lat p1.lon p2.lat p2.lon
    · rw [if_pos h] at hl
      exact Or.inl ⟨h, by rw [hlen, hl]; rfl, hl⟩
    · rw [if_neg h, hsum] at hl
      exact Or.inr ⟨not_le.mp h, by rw [hlen, hl]; rfl, hl⟩

/-- C10, amended, on `track_2500`, whose two legs are 1250 m each. -/
theorem three_point_2500_splits_witness :
    haversine_m point_a.lat point_a.lon point_b.lat point_b.lon
        + haversine_m point_b.lat point_b.lon point_c.lat point_c.lon = 2500
      ∧ ∃ r, calculate_tot_dist [point_a, point_b, point_c] = Except.ok r
        ∧ r.pathLen = 2500
        ∧ r.splits.length ≤ 2
        ∧ ((1000 ≤ haversine_m point_a.lat point_a.lon point_b.lat point_b.lon
              ∧ r.splits.length = 2
              ∧ r.splitLens = [haversine_m point_a.lat point_a.lon point_b.lat point_b.lon,
                  haversine_m point_b.lat point_b.lon point_c.lat point_c.lon])
            ∨ (haversine_m point_a.lat point_a.lon point_b.lat point_b.lon < 1000
              ∧ r.splits.length = 1
              ∧ r.splitLens = [2500])) :=
  have hsum : haversine_m point_a.lat point_a.lon point_b.lat point_b.lon
      + haversine_m point_b.lat point_b.lon point_c.lat point_c.lon = 2500 := by
    rw [track_2500_legs.1, track_2500_legs.2]; norm_num
  ⟨hsum, three_point_2500_splits point_a point_b point_c hsum⟩

/-- C10 as stated fails on `track_2500`: three points, consecutive distances 1250 m and
1250 m, sum 2500 m; the code emits two splits, not three, and none below 1000 m. -/
theorem three_point_2500_counterexample :
    track_2500.length = 3
      ∧ (consecutive_distances track_2500).sum = 2500
      ∧ (∃ r, calculate_tot_dist track_2500 = Except.ok r
          ∧ r.splits.length = 2 ∧ r.splitLens = [1250, 1250])
      ∧ ¬ ∃ r, calculate_tot_dist track_2500 = Except.ok r ∧ r.splits.length = 3 := by
  obtain ⟨r, hr, -, hlen, hl⟩ := three_point_report point_a point_b point_c
  rw [track_2500_legs.1, track_2500_legs.2, if_pos (by norm_num)] at hl
  have h2 : r.splits.length = 2 := by rw [hlen, hl]; rfl
  refine ⟨rfl, ?_, ⟨r, hr, h2, hl⟩, ?_⟩
  · simp only [consecutive_distances, track_2500, List.tail_cons, List.zipWith_cons_cons,
      List.zipWith_nil_right, List.sum_cons, List.sum_nil, track_2500_legs.1,
      track_2500_legs.2]
    norm_num
  · rintro ⟨r2, hr2, h3⟩
    have hr3 : calculate_tot_dist [point_a, point_b, point_c] = Except.ok r2 := hr2
    rw [hr] at hr3
    have e : r = r2 := by injection hr3
    rw [← e, h2] at h3
    exact absurd h3 (by decide)

/-! ## The split records, field by field -/

theorem speed_recorded_loop_body (s : Locals) (p : node) (next : List node)
    (hs : List.Forall₂ speed_recorded s.headSplit s.splitLens) :
    List.Forall₂ speed_recorded (loop_body s p next).headSplit (loop_body s p next).splitLens := by
  cases hf : s.firstNodeFlag with
  | FIRST => rw [loop_body_first s p next hf]; exact hs
  | NOTFIRST =>
    by_cases hc : 1000 ≤ s.splitLen + haversine_m s.latPrev s.lonPrev p.lat p.lon ∨ next = []
    · rw [loop_body_close s p next hf hc]
      exact List.rel_append hs (List.Forall₂.cons rfl List.Forall₂.nil)
    · push_neg at hc
      rw [loop_body_open s p next hf hc.1 hc.2]
      exact hs

theorem speed_recorded_while_loop (l : List node) :
    ∀ s : Locals, List.Forall₂ speed_recorded s.headSplit s.splitLens →
      List.Forall₂ speed_recorded (while_loop s l).headSplit (while_loop s l).splitLens := by
  induction l with
  | nil => intro s hs; exact hs
  | cons p next ih =>
    intro s hs; rw [while_loop]; exact ih _ (speed_recorded_loop_body s p next hs)

theorem closing_points_close (splitLen lat lon : ℝ) (p : node) (next : List node)
    (hc : 1000 ≤ splitLen + haversine_m lat lon p.lat p.lon ∨ next = []) :
    closing_points splitLen lat lon (p :: next) = p :: closing_points 0 p.lat p.lon next := by
  have hc2 : 1000 ≤ splitLen + haversine_m lat lon p.lat p.lon ∨ next.isEmpty = true := by
    rw [List.isEmpty_iff]; exact hc
  rw [closing_points, if_pos hc2]

theorem closing_points_open (splitLen lat lon : ℝ) (p : node) (next : List node)
    (hlt : splitLen + haversine_m lat lon p.lat p.lon < 1000) (hn : next ≠ []) :
    closing_points splitLen lat lon (p :: next)
      = closing_points (splitLen + haversine_m lat lon p.lat p.lon) p.lat p.lon next := by
  have hc2 : ¬ (1000 ≤ splitLen + haversine_m lat lon p.lat p.lon ∨ next.isEmpty = true) := by
    rw [List.isEmpty_iff]; push_neg; exact ⟨hlt, hn⟩
  rw [closing_points, if_neg hc2]

theorem deltas_eq_zipWith {α : Type} [Sub α] (xs : List α) :
    ∀ start : α, deltas start xs
      = List.zipWith (fun a b => b - a) (start :: xs) xs := by
  induction xs with
  | nil => intro start; rfl
  | cons x xs ih => intro start; simp only [deltas, List.zipWith_cons_cons, ih x]

theorem while_loop_elevDiff (l : List node) :
    ∀ s : Locals, s.firstNodeFlag = FirstNodeFlag.NOTFIRST →
      (while_loop s l).headSplit.map split.elevDiff
        = s.headSplit.map split.elevDiff
          ++ deltas s.startElevationSplit
              ((closing_points s.splitLen s.latPrev s.lonPrev l).map node.ele) := by
  induction l with
  | nil => intro s _; simp [while_loop, closing_points, deltas]
  | cons p next ih =>
    intro s h
    rw [while_loop, ih _ (loop_body_flag s p next)]
    by_cases hc : 1000 ≤ s.splitLen + haversine_m s.latPrev s.lonPrev p.lat p.lon ∨ next = []
    · rw [loop_body_close s p next h hc, closing_points_close _ _ _ p next hc]
      simp [deltas]
    · push_neg at hc
      rw [loop_body_open s p next h hc.1 hc.2, closing_points_open _ _ _ p next hc.1 hc.2]

theorem while_loop_pace (l : List node) :
    ∀ s : Locals, s.firstNodeFlag = FirstNodeFlag.NOTFIRST →
      (while_loop s l).headSplit.map split.pace
        = s.headSplit.map split.pace
          ++ deltas s.startTimeSplit
              ((closing_points s.splitLen s.latPrev s.lonPrev l).map node.timeString) := by
  induction l with
  | nil => intro s _; simp [while_loop, closing_points, deltas]
  | cons p next ih =>
    intro s h
    rw [while_loop, ih _ (loop_body_flag s p next)]
    by_cases hc : 1000 ≤ s.splitLen + haversine_m s.latPrev s.lonPrev p.lat p.lon ∨ next = []
    · rw [loop_body_close s p next h hc, closing_points_close _ _ _ p next hc]
      simp [deltas]
    · push_neg at hc
      rw [loop_body_open s p next h hc.1 hc.2, closing_points_open _ _ _ p next hc.1 hc.2]

theorem deltas_length {α : Type} [Sub α] (xs : List α) :
    ∀ start : α, (deltas start xs).length = xs.length := by
  induction xs with
  | nil => intro start; rfl
  | cons x xs ih => intro start; simp only [deltas, List.length_cons, ih x]

theorem while_loop_init_elevDiff (p : node) (rest : List node) :
    (while_loop Locals.init (p :: rest)).headSplit.map split.elevDiff
      = deltas p.ele ((closing_points 0 p.lat p.lon rest).map node.ele) := by
  rw [while_loop, while_loop_elevDiff rest _ (loop_body_flag _ p rest),
    loop_body_first _ p rest rfl, init_eq]
  simp

theorem while_loop_init_pace (p : node) (rest : List node) :
    (while_loop Locals.init (p :: rest)).headSplit.map split.pace
      = deltas p.timeString ((closing_points 0 p.lat p.lon rest).map node.timeString) := by
  rw [while_loop, while_loop_pace rest _ (loop_body_flag _ p rest),
    loop_body_first _ p rest rfl, init_eq]
  simp

theorem while_loop_init_length (p : node) (rest : List node) :
    (while_loop Locals.init (p :: rest)).headSplit.length
      = (closing_points 0 p.lat p.lon rest).length := by
  have h := congrArg List.length (while_loop_init_pace p rest)
  rw [List.length_map, deltas_length, List.length_map] at h
  exact h

/-- The report on two points: the last point closes the only split, whatever its length. -/
theorem two_point_report (p1 p2 : node) :
    ∃ r, calculate_tot_dist [p1, p2] = Except.ok r
      ∧ r.pathLen = haversine_m p1.lat p1.lon p2.lat p2.lon
      ∧ r.elapsedTime = p2.timeString - p1.timeString
      ∧ r.splits =
          [{ splitNo := 1
             pace := p2.timeString - p1.timeString
             speed := ieee_div (haversine_m p1.lat p1.lon p2.lat p2.lon * 3.6)
               ((p2.timeString - p1.timeString : ℤ) : ℝ)
             elevDiff := p2.ele - p1.ele }]
      ∧ r.splitLens = [haversine_m p1.lat p1.lon p2.lat p2.lon] := by
  refine ⟨_, calculate_tot_dist_cons p1 [p2], ?_, rfl, ?_, ?_⟩
  · simp only [while_loop_init_pathLen, legs, List.sum_cons, List.sum_nil, add_zero]
  · simp only [while_loop]
    rw [loop_body_first _ p1 _ rfl, init_eq, loop_body_close _ p2 [] rfl (Or.inr rfl)]
    simp
  · simp only [while_loop]
    rw [loop_body_first _ p1 _ rfl, init_eq, loop_body_close _ p2 [] rfl (Or.inr rfl)]
    simp

theorem ieee_div_zero (x : ℝ) : ieee_div x ((0 : ℤ) : ℝ) = none := by
  simp [ieee_div]

theorem ieee_div_of_ne_zero (x : ℝ) {y : ℝ} (hy : y ≠ 0) : ieee_div x y = some (x / y) := by
  simp [ieee_div, hy]

/-! ## The split records: the claims -/

/-- C12: on the empty list the code checks nothing before the loop; the loop makes no pass
and the read of `curr -> timeString` after it dereferences `NULL`. -/
theorem empty_track_null_dereference :
    while_loop Locals.init [] = Locals.init
      ∧ calculate_tot_dist [] = Except.error Fault.null_dereference :=
  ⟨rfl, rfl⟩

/-- C13: for every split with a non-zero duration the recorded speed is the value of the
code's expression `splitLen * 3.6 / duration`, and that is the split distance in kilometres
over the duration in hours. -/
theorem speed_eq_km_per_hour (first : node) (rest : List node) :
    ∃ r, calculate_tot_dist (first :: rest) = Except.ok r
      ∧ List.Forall₂
          (fun sp len => sp.pace ≠ 0 →
            sp.speed = some (len * 3.6 / (sp.pace : ℝ))
              ∧ len * 3.6 / (sp.pace : ℝ) = km_per_hour len sp.pace)
          r.splits r.splitLens := by
  refine ⟨_, calculate_tot_dist_cons first rest, ?_⟩
  refine List.Forall₂.imp ?_
    (speed_recorded_while_loop (first :: rest) Locals.init List.Forall₂.nil)
  intro sp len h hne
  have hne2 : (sp.pace : ℝ) ≠ 0 := by exact_mod_cast hne
  refine ⟨?_, ?_⟩
  · rw [h]; exact ieee_div_of_ne_zero _ hne2
  · unfold km_per_hour
    field_simp
    ring

/-- C14: the `elevDiff` fields, in order, are the elevation of each closing point minus the
elevation of the split start, which is the first point for the first split and the
closing point of the split before for every other one. -/
theorem elevDiff_from_split_start (first : node) (rest : List node) :
    ∃ r, calculate_tot_dist (first :: rest) = Except.ok r
      ∧ r.splits.map split.elevDiff
          = List.zipWith (fun start finish => finish - start)
              (first.ele :: (closing_points 0 first.lat first.lon rest).map node.ele)
              ((closing_points 0 first.lat first.lon rest).map node.ele) := by
  refine ⟨_, calculate_tot_dist_cons first rest, ?_⟩
  simp only [while_loop_init_elevDiff, deltas_eq_zipWith]

theorem equator_009_distance :
    haversine_m 0 0 0 0.009 = 6367137 * 0.009 * (Real.pi / 180)
      ∧ 1000.1 < haversine_m 0 0 0 0.009 ∧ haversine_m 0 0 0 0.009 < 1000.2 := by
  have h : haversine_m 0 0 0 0.009 = 6367137 * 0.009 * (Real.pi / 180) := by
    rw [haversine_m_equator (by norm_num) (by norm_num)]
    ring
  have h1 := Real.pi_gt_d4
  have h2 := Real.pi_lt_d4
  refine ⟨h, ?_, ?_⟩ <;> rw [h] <;> norm_num at h1 h2 ⊢ <;> linarith

/-! ## The last point of the track -/

theorem while_loop_final (l : List node) :
    ∀ (hl : l ≠ []) (s : Locals), s.firstNodeFlag = FirstNodeFlag.NOTFIRST →
      (while_loop s l).splitLen = 0
        ∧ (while_loop s l).latPrev = (l.getLast hl).lat
        ∧ (while_loop s l).lonPrev = (l.getLast hl).lon
        ∧ (while_loop s l).startTimeSplit = (l.getLast hl).timeString
        ∧ (while_loop s l).startElevationSplit = (l.getLast hl).ele := by
  induction l with
  | nil => intro hl; exact absurd rfl hl
  | cons p next ih =>
    intro hl s h
    cases next with
    | nil =>
      rw [while_loop, while_loop, loop_body_close s p [] h (Or.inr rfl)]
      exact ⟨rfl, rfl, rfl, rfl, rfl⟩
    | cons q rest =>
      rw [while_loop, List.getLast_cons (List.cons_ne_nil q rest)]
      exact ih (List.cons_ne_nil q rest) _ (loop_body_flag s p (q :: rest))

theorem closing_points_subset (l : List node) :
    ∀ (splitLen lat lon : ℝ), ∀ c ∈ closing_points splitLen lat lon l, c ∈ l := by
  induction l with
  | nil => intro _ _ _ c hc; simp [closing_points] at hc
  | cons p next ih =>
    intro splitLen lat lon c hc
    by_cases hcl : 1000 ≤ splitLen + haversine_m lat lon p.lat p.lon ∨ next = []
    · rw [closing_points_close _ _ _ p next hcl] at hc
      rcases List.mem_cons.mp hc with hc | hc
      · rw [hc]; exact List.mem_cons_self _ _
      · exact List.mem_cons_of_mem _ (ih _ _ _ c hc)
    · push_neg at hcl
      rw [closing_points_open _ _ _ p next hcl.1 hcl.2] at hc
      exact List.mem_cons_of_mem _ (ih _ _ _ c hc)

theorem mem_deltas (xs : List ℤ) :
    ∀ (start x : ℤ), x ∈ deltas start xs → ∃ a ∈ start :: xs, ∃ b ∈ xs, x = b - a := by
  induction xs with
  | nil => intro _ x hx; simp [deltas] at hx
  | cons y ys ih =>
    intro start x hx
    rw [deltas] at hx
    rcases List.mem_cons.mp hx with hx | hx
    · exact ⟨start, List.mem_cons_self _ _, y, List.mem_cons_self _ _, hx⟩
    · obtain ⟨a, ha, b, hb, hab⟩ := ih y x hx
      exact ⟨a, List.mem_cons_of_mem _ ha, b, List.mem_cons_of_mem _ hb, hab⟩

theorem pace_is_difference (first : node) (rest : List node) :
    ∀ sp ∈ (while_loop Locals.init (first :: rest)).headSplit,
      ∃ a ∈ first :: rest, ∃ b ∈ first :: rest, sp.pace = b.timeString - a.timeString := by
  intro sp hsp
  have hm : sp.pace ∈ (while_loop Locals.init (first :: rest)).headSplit.map split.pace :=
    List.mem_map_of_mem _ hsp
  rw [while_loop_init_pace] at hm
  obtain ⟨a, ha, b, hb, hab⟩ := mem_deltas _ _ _ hm
  obtain ⟨nb, hnb, rfl⟩ := List.mem_map.mp hb
  have hnb2 : nb ∈ first :: rest :=
    List.mem_cons_of_mem _ (closing_points_subset rest _ _ _ nb hnb)
  rcases List.mem_cons.mp ha with ha | ha
  · exact ⟨first, List.mem_cons_self _ _, nb, hnb2, by rw [hab, ha]⟩
  · obtain ⟨na, hna, rfl⟩ := List.mem_map.mp ha
    exact ⟨na, List.mem_cons_of_mem _ (closing_points_subset rest _ _ _ na hna), nb, hnb2, hab⟩

/-- C13 on the two equator points of the 1000 m scenario, sixty seconds apart: the speed
of the only split is its distance in kilometres over one sixtieth of an hour. -/
theorem speed_eq_km_per_hour_witness :
    ∃ r, calculate_tot_dist
          [{ lat := 0, lon := 0, ele := 0, timeString := 0 },
           { lat := 0, lon := 0.009, ele := 0, timeString := 60 }] = Except.ok r
      ∧ ∃ sp, r.splits = [sp] ∧ sp.pace = 60
        ∧ sp.speed = some (km_per_hour (haversine_m 0 0 0 0.009) 60) := by
  obtain ⟨r, hr, hall⟩ := speed_eq_km_per_hour
    { lat := 0, lon := 0, ele := 0, timeString := 0 }
    [{ lat := 0, lon := 0.009, ele := 0, timeString := 60 }]
  obtain ⟨r2, hr2, -, -, hs, hl⟩ := two_point_report
    { lat := 0, lon := 0, ele := 0, timeString := 0 }
    { lat := 0, lon := 0.009, ele := 0, timeString := 60 }
  rw [hr] at hr2
  have e : r = r2 := by injection hr2
  rw [← e] at hs hl
  simp only [sub_zero] at hs hl
  rw [hs, hl, List.forall₂_cons] at hall
  have h60 : (60 : ℤ) ≠ 0 := by decide
  obtain ⟨h1, h2⟩ := hall.1 h60
  refine ⟨r, hr, _, hs, rfl, ?_⟩
  exact h1.trans (congrArg some h2)

/-! ## sec_to_clock_time -/

theorem print_02d_two_digits (k : ℕ) (hk : k < 60) : print_02d (k : ℤ) = two_digits k := by
  interval_cases k <;> rfl

theorem toString_natCast (m : ℕ) : toString ((m : ℕ) : ℤ) = Nat.repr m := rfl

theorem to_int_of_small {x : ℤ} (h0 : 0 ≤ x) (h1 : x < 2147483648) : to_int x = x := by
  unfold to_int
  omega

/-- Below 60000000 seconds the text fits the array, and it is the minutes `sec / 60`, a
colon, and the two digits of the seconds `sec % 60`. -/
theorem sec_to_clock_time_in_range (sec : ℤ) (h0 : 0 ≤ sec) (h1 : sec < 60000000) :
    sec_to_clock_time sec
        = Except.ok (toString (sec / 60) ++ ":" ++ two_digits (sec % 60).toNat)
      ∧ (two_digits (sec % 60).toNat).length = 2
      ∧ 60 * (sec / 60) + sec % 60 = sec ∧ 0 ≤ sec % 60 ∧ sec % 60 < 60 := by
  obtain ⟨n, rfl⟩ := Int.eq_ofNat_of_zero_le h0
  have hn : n < 60000000 := by exact_mod_cast h1
  have hdiv : Int.tdiv (n : ℤ) 60 = ((n / 60 : ℕ) : ℤ) := (Int.ofNat_tdiv n 60).symm
  have hmod : Int.tmod (n : ℤ) 60 = ((n % 60 : ℕ) : ℤ) := (Int.ofNat_tmod n 60).symm
  have hm : to_int ((n / 60 : ℕ) : ℤ) = ((n / 60 : ℕ) : ℤ) :=
    to_int_of_small (by omega) (by omega)
  have hs : to_int ((n % 60 : ℕ) : ℤ) = ((n % 60 : ℕ) : ℤ) :=
    to_int_of_small (by omega) (by omega)
  have h60 : n % 60 < 60 := Nat.mod_lt _ (by norm_num)
  have hlen : (Nat.repr (n / 60)).length ≤ 6 :=
    Nat.repr_length (n / 60) 6 (by norm_num) (by omega)
  have e1 : ((n : ℤ) / 60) = ((n / 60 : ℕ) : ℤ) := (Int.natCast_div n 60).symm
  have e2 : ((n : ℤ) % 60).toNat = n % 60 := by omega
  refine ⟨?_, rfl, by omega, by omega, by omega⟩
  have key : sec_to_clock_time (n : ℤ)
      = if (print_d (to_int (Int.tdiv (n : ℤ) 60)) ++ ":"
            ++ print_02d (to_int (Int.tmod (n : ℤ) 60))).length + 1 ≤ 10
        then Except.ok (print_d (to_int (Int.tdiv (n : ℤ) 60)) ++ ":"
            ++ print_02d (to_int (Int.tmod (n : ℤ) 60)))
        else Except.error Fault.buffer_overflow := rfl
  have h2 : (two_digits (n % 60)).length = 2 := rfl
  have h3 : (":" : String).length = 1 := rfl
  rw [key, hdiv, hmod, hm, hs, print_02d_two_digits _ h60, e1, e2]
  unfold print_d
  rw [toString_natCast, if_pos]
  rw [String.length_append, String.length_append]
  omega

/-- C20: at 60000000 seconds the minutes take seven digits, the text `1000000:00` with its
terminating NUL needs eleven bytes and `sprintf` overruns the ten bytes of `time`; one
second less still fits. -/
theorem sec_to_clock_time_overrun :
    sec_to_clock_time 60000000 = Except.error Fault.buffer_overflow
      ∧ sec_to_clock_time 59999999 = Except.ok "999999:59" := by
  constructor <;> rfl

/-! ## The split lengths add up to the total distance -/

theorem accounted_loop_body (s : Locals) (p : node) (next : List node) (hs : accounted s) :
    accounted (loop_body s p next) := by
  obtain ⟨h1, h2, h3⟩ := hs
  cases hf : s.firstNodeFlag with
  | FIRST => rw [loop_body_first s p next hf]; exact ⟨h1, h2, h3⟩
  | NOTFIRST =>
    have hd := haversine_m_nonneg s.latPrev s.lonPrev p.lat p.lon
    by_cases hc : 1000 ≤ s.splitLen + haversine_m s.latPrev s.lonPrev p.lat p.lon ∨ next = []
    · rw [loop_body_close s p next hf hc]
      refine ⟨?_, le_refl _, ?_⟩
      · simp only [List.sum_append, List.sum_cons, List.sum_nil, h1]
        ring
      · intro x hx
        rcases List.mem_append.mp hx with hx | hx
        · exact h3 x hx
        · rw [List.mem_singleton] at hx
          rw [hx]
          linarith
    · push_neg at hc
      rw [loop_body_open s p next hf hc.1 hc.2]
      refine ⟨?_, ?_, h3⟩
      · simp only [h1]
        ring
      · show 0 ≤ s.splitLen + haversine_m s.latPrev s.lonPrev p.lat p.lon
        linarith

theorem accounted_while_loop (l : List node) :
    ∀ s : Locals, accounted s → accounted (while_loop s l) := by
  induction l with
  | nil => intro s hs; exact hs
  | cons p next ih => intro s hs; rw [while_loop]; exact ih _ (accounted_loop_body s p next hs)

theorem accounted_init : accounted Locals.init := by
  rw [init_eq]
  exact ⟨by simp, le_refl _, fun x hx => absurd hx (List.not_mem_nil x)⟩

theorem sum_ge_of_dropLast_full (l : List ℝ) (h0 : ∀ x ∈ l, (0 : ℝ) ≤ x)
    (hfull : ∀ x ∈ l.dropLast, (1000 : ℝ) ≤ x) :
    ((l.length : ℝ) - 1) * 1000 ≤ l.sum := by
  by_cases hl : l = []
  · rw [hl]; norm_num
  · have hsplit := List.dropLast_append_getLast hl
    have hlast : 0 ≤ l.getLast hl := h0 _ (List.getLast_mem hl)
    have hsum : l.sum = l.dropLast.sum + l.getLast hl := by
      conv_lhs => rw [← hsplit]
      simp
    have hcard := List.card_nsmul_le_sum l.dropLast (1000 : ℝ) hfull
    rw [List.length_dropLast, nsmul_eq_mul] at hcard
    have hpos : 1 ≤ l.length := Nat.one_le_iff_ne_zero.mpr (fun h => hl (List.length_eq_zero.mp h))
    have hcast : ((l.length - 1 : ℕ) : ℝ) = (l.length : ℝ) - 1 := by
      rw [Nat.cast_sub hpos]; norm_num
    rw [hcast] at hcard
    linarith

/-- C21: on every track of at least two points the split lengths at closure add up to the
total distance `pathLen`, one length for each split record; so with `N` records the total
distance is at least `(N - 1) * 1000` m. -/
theorem splitLens_sum_eq_pathLen (track : List node) (h : 2 ≤ track.length) :
    ∃ r, calculate_tot_dist track = Except.ok r
      ∧ r.splitLens.length = r.splits.length
      ∧ r.splitLens.sum = r.pathLen
      ∧ ((r.splits.length : ℝ) - 1) * 1000 ≤ r.pathLen := by
  cases track with
  | nil => simp at h
  | cons first rest =>
    cases rest with
    | nil => simp at h
    | cons q rest =>
      have hacc := accounted_while_loop (first :: q :: rest) Locals.init accounted_init
      have hlen := splitLens_length_while_loop (first :: q :: rest) Locals.init rfl
      have hfin : (while_loop Locals.init (first :: q :: rest)).splitLen = 0 := by
        rw [while_loop]
        exact (while_loop_final (q :: rest) (List.cons_ne_nil q rest) _
          (loop_body_flag Locals.init first (q :: rest))).1
      have hfull := full_dropLast_while_loop (first :: q :: rest) Locals.init
        (fun x hx => absurd hx (List.not_mem_nil x))
      obtain ⟨h1, -, h3⟩ := hacc
      rw [hfin, add_zero] at h1
      refine ⟨_, calculate_tot_dist_cons first (q :: rest), hlen, h1.symm, ?_⟩
      have hb := sum_ge_of_dropLast_full _ h3 hfull
      rw [hlen, ← h1] at hb
      exact hb

/-- C21 on `track_2500`: two splits of 1250 m, total 2500 m. -/
theorem splitLens_sum_eq_pathLen_witness :
    ∃ r, calculate_tot_dist track_2500 = Except.ok r
      ∧ r.splitLens = [1250, 1250] ∧ r.splitLens.sum = r.pathLen ∧ r.pathLen = 2500 := by
  obtain ⟨r, hr, -, hsum, -⟩ := splitLens_sum_eq_pathLen track_2500 (by simp [track_2500])
  obtain ⟨r3, hr3, -, -, hl⟩ := three_point_report point_a point_b point_c
  rw [track_2500_legs.1, track_2500_legs.2, if_pos (by norm_num)] at hl
  have hr4 : calculate_tot_dist [point_a, point_b, point_c] = Except.ok r := hr
  rw [hr3] at hr4
  have e : r3 = r := by injection hr4
  rw [e] at hl
  refine ⟨r, hr, hl, hsum, ?_⟩
  rw [← hsum, hl]
  norm_num

end GPSAnalysis

namespace SocialNetwork

/-! ## The co-occurrence scan -/

theorem co_occurrence_iff (a b : ℤ) :
    |a - b| < CO_OCCURRENCE ↔ a < b + CO_OCCURRENCE ∧ b < a + CO_OCCURRENCE := by
  rw [abs_lt]
  unfold CO_OCCURRENCE
  constructor <;> intro h <;> constructor <;> omega

theorem int_wrap_of_range {x : ℤ} (h0 : -2147483648 ≤ x) (h1 : x ≤ INT_MAX) : int_wrap x = x := by
  unfold INT_MAX at h1
  unfold int_wrap
  omega

/-- With the first line number at most `INT_MAX - CO_OCCURRENCE` the sum of the loop test
does not overflow. -/
theorem int_wrap_add {a : ℤ} (h : 1 ≤ a ∧ a + CO_OCCURRENCE ≤ INT_MAX) :
    int_wrap (a + CO_OCCURRENCE) = a + CO_OCCURRENCE := by
  have h2 := h.2
  unfold CO_OCCURRENCE at h2 ⊢
  exact int_wrap_of_range (by omega) h2

/-- Between two line numbers in the range of `int` and at least 1 the difference and its
absolute value do not overflow. -/
theorem int_abs_sub {a b : ℤ} (ha : 1 ≤ a ∧ a ≤ INT_MAX) (hb : 1 ≤ b ∧ b ≤ INT_MAX) :
    int_abs (int_wrap (a - b)) = |a - b| := by
  obtain ⟨ha1, ha2⟩ := ha
  obtain ⟨hb1, hb2⟩ := hb
  have hlo : -2147483648 ≤ a - b := by unfold INT_MAX at hb2; omega
  have hhi : a - b ≤ INT_MAX := by unfold INT_MAX at *; omega
  rw [int_wrap_of_range hlo hhi]
  unfold int_abs
  apply int_wrap_of_range
  · have := abs_nonneg (a - b); omega
  · rw [abs_le]
    unfold INT_MAX at *
    constructor <;> omega

theorem get_line_numbers_range (hits : List ℕ) :
    ∀ line : ℤ, 0 ≤ line → line + hits.length ≤ INT_MAX →
      ∀ x ∈ get_line_numbers line hits, line + 1 ≤ x ∧ x ≤ line + hits.length := by
  induction hits with
  | nil => intro line _ _ x hx; simp [get_line_numbers] at hx
  | cons k rest ih =>
    intro line h0 h1 x hx
    rw [List.length_cons] at h1 ⊢
    push_cast at h1 ⊢
    have hw : int_wrap (line + 1) = line + 1 := int_wrap_of_range (by omega) (by omega)
    rw [get_line_numbers, hw] at hx
    rcases List.mem_append.mp hx with hx | hx
    · rw [(List.mem_replicate.mp hx).2]
      constructor <;> omega
    · have := ih (line + 1) (by omega) (by omega) x hx
      constructor <;> omega

theorem get_line_numbers_sorted (hits : List ℕ) :
    ∀ line : ℤ, 0 ≤ line → line + hits.length ≤ INT_MAX →
      (get_line_numbers line hits).Sorted (fun x y => x ≤ y) := by
  induction hits with
  | nil => intro line _ _; simp [get_line_numbers]
  | cons k rest ih =>
    intro line h0 h1
    rw [List.length_cons] at h1
    push_cast at h1
    have hw : int_wrap (line + 1) = line + 1 := int_wrap_of_range (by omega) (by omega)
    rw [get_line_numbers, hw]
    refine List.pairwise_append.mpr ⟨?_, ih (line + 1) (by omega) (by omega), ?_⟩
    · rw [List.pairwise_replicate]
      exact Or.inr (le_refl _)
    · intro x hx y hy
      rw [(List.mem_replicate.mp hx).2]
      exact (get_line_numbers_range rest (line + 1) (by omega) (by omega) y hy).1.trans'
        (by omega)

theorem inner_while_spec (a : ℤ) (ha : 1 ≤ a ∧ a + CO_OCCURRENCE ≤ INT_MAX) (S : List ℤ) :
    ∀ (firstPairForFirst : Bool) (secondFirstPair : List ℤ) (rows : List (ℤ × ℤ)),
      S.Sorted (fun x y => x ≤ y) → (∀ b ∈ S, 1 ≤ b ∧ b ≤ INT_MAX) →
      (inner_while a S firstPairForFirst secondFirstPair rows).2
          = rows ++ (S.filter (fun b => decide (|a - b| < CO_OCCURRENCE))).map (fun b => (a, b))
        ∧ (firstPairForFirst = true →
            (inner_while a S firstPairForFirst secondFirstPair rows).1 = secondFirstPair)
        ∧ (firstPairForFirst = false →
            (inner_while a S firstPairForFirst secondFirstPair rows).1 = secondFirstPair
              ∨ ∃ pre, S = pre ++ (inner_while a S firstPairForFirst secondFirstPair rows).1
                  ∧ ∀ b ∈ pre, b + CO_OCCURRENCE ≤ a) := by
  have ha2 : 1 ≤ a ∧ a ≤ INT_MAX := by
    obtain ⟨h1, h2⟩ := ha
    unfold CO_OCCURRENCE at h2
    exact ⟨h1, by omega⟩
  induction S with
  | nil => intro fp sfp rows _ _; simp [inner_while]
  | cons b next ih =>
    intro fp sfp rows hS hSr
    have hnext : next.Sorted (fun x y => x ≤ y) := hS.of_cons
    have hle : ∀ c ∈ next, b ≤ c := (List.sorted_cons.mp hS).1
    have hb : 1 ≤ b ∧ b ≤ INT_MAX := hSr b (List.mem_cons_self b next)
    have hnextr : ∀ c ∈ next, 1 ≤ c ∧ c ≤ INT_MAX :=
      fun c hc => hSr c (List.mem_cons_of_mem b hc)
    by_cases hrun : a + CO_OCCURRENCE > b
    · by_cases hm : |a - b| < CO_OCCURRENCE
      · obtain ⟨h1, h2, -⟩ := ih true (if fp = false then b :: next else sfp)
          (rows ++ [(a, b)]) hnext hnextr
        have e : inner_while a (b :: next) fp sfp rows
            = inner_while a next true (if fp = false then b :: next else sfp)
                (rows ++ [(a, b)]) := by
          rw [inner_while, int_wrap_add ha, int_abs_sub ha2 hb, if_pos hrun, if_pos hm]
        rw [e]
        refine ⟨?_, ?_, ?_⟩
        · rw [h1, List.filter_cons_of_pos (by simpa using hm)]
          simp
        · intro hfp
          rw [h2 rfl, hfp]
          rfl
        · intro hfp
          rw [h2 rfl, hfp]
          exact Or.inr ⟨[], rfl, fun c hc => absurd hc (List.not_mem_nil c)⟩
      · obtain ⟨h1, h2, h3⟩ := ih fp sfp rows hnext hnextr
        have e : inner_while a (b :: next) fp sfp rows = inner_while a next fp sfp rows := by
          rw [inner_while, int_wrap_add ha, int_abs_sub ha2 hb, if_pos hrun, if_neg hm]
        have hskip : b + CO_OCCURRENCE ≤ a := by
          rw [co_occurrence_iff] at hm
          push_neg at hm
          by_contra hlt
          exact absurd (hm (not_le.mp hlt)) (not_le.mpr hrun)
        rw [e]
        refine ⟨?_, h2, ?_⟩
        · rw [h1, List.filter_cons_of_neg (by simpa using hm)]
        · intro hfp
          rcases h3 hfp with h | ⟨pre, hpre, hall⟩
          · exact Or.inl h
          · refine Or.inr ⟨b :: pre, by rw [List.cons_append, ← hpre], ?_⟩
            intro c hc
            rcases List.mem_cons.mp hc with hc | hc
            · rw [hc]; exact hskip
            · exact hall c hc
    · have e : inner_while a (b :: next) fp sfp rows = (sfp, rows) := by
        rw [inner_while, int_wrap_add ha, if_neg hrun]
      have hnone : (b :: next).filter (fun c => decide (|a - c| < CO_OCCURRENCE)) = [] := by
        rw [List.filter_eq_nil_iff]
        intro c hc
        have hbc : b ≤ c := by
          rcases List.mem_cons.mp hc with hc | hc
          · rw [hc]
          · exact hle c hc
        rw [decide_eq_true_eq, co_occurrence_iff]
        intro h
        exact hrun (lt_of_le_of_lt hbc h.2)
      rw [e, hnone]
      exact ⟨by simp, fun _ => rfl, fun _ => Or.inl rfl⟩

theorem filter_skipped_eq_nil (a : ℤ) (pre : List ℤ) (h : ∀ b ∈ pre, b + CO_OCCURRENCE ≤ a) :
    pre.filter (fun b => decide (|a - b| < CO_OCCURRENCE)) = [] := by
  rw [List.filter_eq_nil_iff]
  intro b hb
  rw [decide_eq_true_eq, co_occurrence_iff]
  intro hm
  exact absurd (h b hb) (not_le.mpr hm.1)

theorem naive_double_loop_cons (a : ℤ) (A B : List ℤ) :
    naive_double_loop (a :: A) B
      = (B.filter (fun b => decide (|a - b| < CO_OCCURRENCE))).map (fun b => (a, b))
        ++ naive_double_loop A B := by
  unfold naive_double_loop
  have h : (a :: A).product B = List.map (fun b => (a, b)) B ++ A.product B :=
    List.product_cons a A B
  rw [h, List.filter_append, List.filter_map]
  rfl

theorem outer_while_spec (B : List ℤ) (hB : B.Sorted (fun x y => x ≤ y))
    (hBr : ∀ b ∈ B, 1 ≤ b ∧ b ≤ INT_MAX) (A : List ℤ) :
    ∀ (secondFirstPair pre : List ℤ) (rows : List (ℤ × ℤ)),
      A.Sorted (fun x y => x ≤ y) → (∀ a ∈ A, 1 ≤ a ∧ a + CO_OCCURRENCE ≤ INT_MAX) →
      B = pre ++ secondFirstPair →
      (∀ a ∈ A, ∀ b ∈ pre, b + CO_OCCURRENCE ≤ a) →
      outer_while A secondFirstPair rows = rows ++ naive_double_loop A B := by
  induction A with
  | nil => intro sfp pre rows _ _ _ _; simp [outer_while, naive_double_loop]
  | cons a next ih =>
    intro sfp pre rows hA hAr hsplit hpre
    have hnext : next.Sorted (fun x y => x ≤ y) := hA.of_cons
    have hle : ∀ c ∈ next, a ≤ c := (List.sorted_cons.mp hA).1
    have ha := hAr a (List.mem_cons_self a next)
    have hnextr : ∀ c ∈ next, 1 ≤ c ∧ c + CO_OCCURRENCE ≤ INT_MAX :=
      fun c hc => hAr c (List.mem_cons_of_mem a hc)
    have hsfp : sfp.Sorted (fun x y => x ≤ y) := by
      rw [hsplit] at hB
      exact (List.pairwise_append.mp hB).2.1
    have hsfpr : ∀ b ∈ sfp, 1 ≤ b ∧ b ≤ INT_MAX := by
      intro b hb
      exact hBr b (by rw [hsplit]; exact List.mem_append_right pre hb)
    obtain ⟨h1, -, h3⟩ := inner_while_spec a ha sfp false sfp rows hsfp hsfpr
    have hpre_a : ∀ b ∈ pre, b + CO_OCCURRENCE ≤ a := hpre a (List.mem_cons_self a next)
    have hrows : (inner_while a sfp false sfp rows).2
        = rows ++ (B.filter (fun b => decide (|a - b| < CO_OCCURRENCE))).map (fun b => (a, b)) := by
      rw [h1, hsplit, List.filter_append, filter_skipped_eq_nil a pre hpre_a, List.nil_append]
    have hinv : ∃ pre2, B = pre2 ++ (inner_while a sfp false sfp rows).1
        ∧ ∀ c ∈ next, ∀ b ∈ pre2, b + CO_OCCURRENCE ≤ c := by
      rcases h3 rfl with h | ⟨pre2, hp2, hall⟩
      · refine ⟨pre, by rw [h]; exact hsplit, ?_⟩
        intro c hc b hb
        exact le_trans (hpre_a b hb) (hle c hc)
      · refine ⟨pre ++ pre2, by rw [List.append_assoc, ← hp2]; exact hsplit, ?_⟩
        intro c hc b hb
        rcases List.mem_append.mp hb with hb | hb
        · exact le_trans (hpre_a b hb) (hle c hc)
        · exact le_trans (hall b hb) (hle c hc)
    obtain ⟨pre2, hp2, hall2⟩ := hinv
    rw [outer_while, ih _ pre2 _ hnext hnextr hp2 hall2, hrows, naive_double_loop_cons,
      List.append_assoc]

theorem analyse_pair_eq_outer_while (A B : List ℤ) : analyse_pair A B = outer_while A B [] := by
  cases A with
  | nil => rfl
  | cons a next =>
    cases B with
    | nil =>
      have h : ∀ l : List ℤ, outer_while l [] [] = [] := by
        intro l
        induction l with
        | nil => rfl
        | cons x xs ih => rw [outer_while]; exact ih
      rw [h]; rfl
    | cons b rest => rfl

theorem analyse_pair_sorted (A B : List ℤ) (hA : A.Sorted (fun x y => x ≤ y))
    (hB : B.Sorted (fun x y => x ≤ y))
    (hAr : ∀ a ∈ A, 1 ≤ a ∧ a + CO_OCCURRENCE ≤ INT_MAX) (hBr : ∀ b ∈ B, 1 ≤ b ∧ b ≤ INT_MAX) :
    analyse_pair A B = naive_double_loop A B := by
  rw [analyse_pair_eq_outer_while,
    outer_while_spec B hB hBr A B [] [] hA hAr rfl
      (fun _ _ b hb => absurd hb (List.not_mem_nil b))]
  rfl

/-- The scan on the lists that `get_line_numbers` builds from a file of at most
`INT_MAX - CO_OCCURRENCE` lines, whatever the hits in the lines. -/
theorem analyse_pair_get_line_numbers (hits_i hits_j : List ℕ)
    (hi : (hits_i.length : ℤ) + CO_OCCURRENCE ≤ INT_MAX) (hj : (hits_j.length : ℤ) ≤ INT_MAX) :
    analyse_pair (get_line_numbers 0 hits_i) (get_line_numbers 0 hits_j)
      = naive_double_loop (get_line_numbers 0 hits_i) (get_line_numbers 0 hits_j) := by
  have hi2 : (0 : ℤ) + hits_i.length ≤ INT_MAX := by unfold CO_OCCURRENCE at hi; omega
  have hj2 : (0 : ℤ) + hits_j.length ≤ INT_MAX := by omega
  refine analyse_pair_sorted _ _ (get_line_numbers_sorted hits_i 0 (le_refl _) hi2)
    (get_line_numbers_sorted hits_j 0 (le_refl _) hj2) ?_ ?_
  · intro a ha
    have := get_line_numbers_range hits_i 0 (le_refl _) hi2 a ha
    unfold CO_OCCURRENCE at hi ⊢
    constructor <;> omega
  · intro b hb
    have := get_line_numbers_range hits_j 0 (le_refl _) hj2 b hb
    constructor <;> omega

/-! ## The co-occurrence scan: the claim -/

/-- C22, as the code has it: for two non-decreasing line lists whose line numbers are at
least 1, at most `INT_MAX - CO_OCCURRENCE` in the first list and at most `INT_MAX` in the
second, the scan of `analyse_and_output`, which restarts from `secondFirstPair`, writes the
rows of the naive double loop: one row for each pair of occurrences `(a, b)` with
`|a - b| < CO_OCCURRENCE`, in the same order, none skipped and none written twice; in
particular it writes as many rows. -/
theorem scan_eq_naive_double_loop (A B : List ℤ) (hA : A.Sorted (fun x y => x ≤ y))
    (hB : B.Sorted (fun x y => x ≤ y))
    (hAr : ∀ a ∈ A, 1 ≤ a ∧ a + CO_OCCURRENCE ≤ INT_MAX) (hBr : ∀ b ∈ B, 1 ≤ b ∧ b ≤ INT_MAX) :
    analyse_pair A B = naive_double_loop A B
      ∧ (analyse_pair A B).length
          = (List.product A B).countP (fun ab => decide (|ab.1 - ab.2| < CO_OCCURRENCE)) := by
  have h := analyse_pair_sorted A B hA hB hAr hBr
  refine ⟨h, ?_⟩
  rw [h, naive_double_loop, List.countP_eq_length_filter]

/-- C22, amended, on the lists `[1, 2, 10, 10, 30]` and `[3, 6, 6, 14, 20, 33, 34]`: twelve
rows. -/
theorem scan_eq_naive_double_loop_witness :
    analyse_pair [1, 2, 10, 10, 30] [3, 6, 6, 14, 20, 33, 34]
        = naive_double_loop [1, 2, 10, 10, 30] [3, 6, 6, 14, 20, 33, 34]
      ∧ (analyse_pair [1, 2, 10, 10, 30] [3, 6, 6, 14, 20, 33, 34]).length = 12 := by
  have h := scan_eq_naive_double_loop [1, 2, 10, 10, 30] [3, 6, 6, 14, 20, 33, 34]
    (by decide) (by decide) (by decide) (by decide)
  exact ⟨h.1, by decide⟩

/-- C22 as stated fails at the top of the `int` range: for the one-element lists
`[2147483645]` and `[2147483646]`, both non-decreasing, one line apart, the sum
`first -> lineNo + CO_OCCURRENCE` overflows, the inner loop makes no pass and no row is
written, where the naive double loop has one row. -/
theorem scan_int_overflow_counterexample :
    List.Sorted (fun x y => x ≤ y) [(2147483645 : ℤ)]
      ∧ List.Sorted (fun x y => x ≤ y) [(2147483646 : ℤ)]
      ∧ analyse_pair [2147483645] [2147483646] = []
      ∧ naive_double_loop [2147483645] [2147483646] = [(2147483645, 2147483646)]
      ∧ analyse_pair [2147483645] [2147483646] ≠ naive_double_loop [2147483645] [2147483646] := by
  refine ⟨by decide, by decide, by decide, by decide, by decide⟩

end SocialNetwork

namespace GPSAnalysis

/-! ## The speed of a split of duration 0 -/

theorem ieee_div_eq_guarded_speed (len : ℝ) (pace : ℤ) :
    ieee_div (len * 3.6) (pace : ℝ) = guarded_speed len pace := by
  unfold guarded_speed
  by_cases h : pace = 0
  · rw [if_pos h, h]
    exact ieee_div_zero _
  · have h2 : (pace : ℝ) ≠ 0 := by exact_mod_cast h
    rw [if_neg h, ieee_div_of_ne_zero _ h2]
    congr 1
    unfold km_per_hour
    field_simp
    ring

/-! ### What does not depend on the durations -/

theorem loop_body_tm_same_track (t : Locals_tm) (s : Locals) (p : node) (next : List node)
    (h : t.same_track s) : (loop_body_tm t p next).same_track (loop_body s p next) := by
  obtain ⟨h1, h2, h3, h4, h5, h6, h7, h8, h9, h10⟩ := h
  unfold Locals_tm.same_track
  simp only [loop_body_tm, loop_body, h1, h2, h3, h4, h5, h6, h7, h10]
  split_ifs <;> simp [add_to_splits_list_eq, h1, h2, h3, h4, h5, h6, h7, h8, h9, h10]

/-- Whatever `mktime` reads for `tm_isdst`, the loop with the `struct tm` locals and the
loop of `loop_body` end with the same distances, the same split lengths, and records with
the same numbers and elevation changes. -/
theorem while_loop_tm_same_track (l : List node) :
    ∀ (t : Locals_tm) (s : Locals), t.same_track s →
      (while_loop_tm t l).same_track (while_loop s l) := by
  induction l with
  | nil => intro t s h; exact h
  | cons p next ih =>
    intro t s h
    rw [while_loop_tm, while_loop]
    exact ih _ _ (loop_body_tm_same_track t s p next h)

theorem init_same_track (u : Indeterminate) : (Locals_tm.init u).same_track Locals.init :=
  ⟨rfl, rfl, rfl, rfl, rfl, rfl, rfl, rfl, rfl, rfl⟩

theorem while_loop_tm_init_length (u : Indeterminate) (first : node) (rest : List node) :
    (while_loop_tm (Locals_tm.init u) (first :: rest)).headSplit.length
      = (closing_points 0 first.lat first.lon rest).length := by
  have h := (while_loop_tm_same_track (first :: rest) _ _ (init_same_track u)).2.2.2.2.2.2.2.1
  have h2 := congrArg List.length h
  rw [List.length_map, List.length_map, while_loop_init_length] at h2
  exact h2

theorem while_loop_tm_init_pathLen (u : Indeterminate) (first : node) (rest : List node) :
    (while_loop_tm (Locals_tm.init u) (first :: rest)).pathLen
      = (List.zipWith (fun p q => haversine_m p.lat p.lon q.lat q.lon)
          (first :: rest) rest).sum := by
  rw [(while_loop_tm_same_track (first :: rest) _ _ (init_same_track u)).2.1,
    while_loop_init_pathLen, legs_eq_zipWith]

/-! ### The divisions that the loop evaluates -/

/-- The division invariant of the loop: every record holds what `ieee_div` gives for its
split length, times 3.6, and its duration, and the loop has evaluated one division for each
record, with these operands. -/
theorem divisions_loop_body_tm (s : Locals_tm) (p : node) (next : List node)
    (hs : List.Forall₂ speed_recorded s.headSplit s.splitLens
      ∧ s.divisions.map Prod.snd = s.headSplit.map (fun sp => (sp.pace : ℝ))
      ∧ s.divisions.map Prod.fst = s.splitLens.map (fun len => len * 3.6)) :
    List.Forall₂ speed_recorded (loop_body_tm s p next).headSplit
        (loop_body_tm s p next).splitLens
      ∧ (loop_body_tm s p next).divisions.map Prod.snd
          = (loop_body_tm s p next).headSplit.map (fun sp => (sp.pace : ℝ))
      ∧ (loop_body_tm s p next).divisions.map Prod.fst
          = (loop_body_tm s p next).splitLens.map (fun len => len * 3.6) := by
  obtain ⟨h1, h2, h3⟩ := hs
  simp only [loop_body_tm]
  split_ifs
  · exact ⟨h1, h2, h3⟩
  · refine ⟨?_, ?_, ?_⟩
    · simp only [add_to_splits_list_eq]
      exact List.rel_append h1 (List.Forall₂.cons rfl List.Forall₂.nil)
    · simp [add_to_splits_list_eq, h2]
    · simp [h3]
  · exact ⟨h1, h2, h3⟩

theorem divisions_while_loop_tm (l : List node) :
    ∀ s : Locals_tm,
      (List.Forall₂ speed_recorded s.headSplit s.splitLens
        ∧ s.divisions.map Prod.snd = s.headSplit.map (fun sp => (sp.pace : ℝ))
        ∧ s.divisions.map Prod.fst = s.splitLens.map (fun len => len * 3.6)) →
      List.Forall₂ speed_recorded (while_loop_tm s l).headSplit (while_loop_tm s l).splitLens
        ∧ (while_loop_tm s l).divisions.map Prod.snd
            = (while_loop_tm s l).headSplit.map (fun sp => (sp.pace : ℝ))
        ∧ (while_loop_tm s l).divisions.map Prod.fst
            = (while_loop_tm s l).splitLens.map (fun len => len * 3.6) := by
  induction l with
  | nil => intro s hs; exact hs
  | cons p next ih =>
    intro s hs
    rw [while_loop_tm]
    exact ih _ (divisions_loop_body_tm s p next hs)

theorem equator_leg_009 {lon1 lon2 : ℝ} (h : lon2 - lon1 = 0.009) :
    haversine_m 0 lon1 0 lon2 ≥ 1000.0 := by
  rw [haversine_m_equator (by rw [h]; norm_num) (by rw [h]; norm_num), h]
  have h1 := Real.pi_gt_d4
  norm_num at h1 ⊢
  linarith

/-! ### The speed of a split of duration 0: the claim -/

/-- C11, as the code has it: on every track of at least one point, whatever `mktime` reads
for `tm_isdst`, the speed of every record is the quotient of the `double`s `splitLen * 3.6`
and `(double) averagePaceSplit`, with no test of the divisor: the loop evaluates exactly one
division for each record, and its divisor is the duration of the record.  For a record of
duration 0 this is a division by zero, which does not trap and gives no number: the speed
is undefined (`none`), the value that the guarded division of the specification has.  The
pass goes on over all the points: the number of records is the number of closing points,
which the durations do not influence, and the total distance is the sum over all
consecutive pairs. -/
theorem speed_division_unguarded (u : Indeterminate) (first : node) (rest : List node) :
    List.Forall₂
        (fun sp len => sp.speed = ieee_div (len * 3.6) (sp.pace : ℝ)
          ∧ sp.speed = guarded_speed len sp.pace ∧ (sp.pace = 0 → sp.speed = none))
        (while_loop_tm (Locals_tm.init u) (first :: rest)).headSplit
        (while_loop_tm (Locals_tm.init u) (first :: rest)).splitLens
      ∧ (while_loop_tm (Locals_tm.init u) (first :: rest)).divisions.map Prod.snd
          = (while_loop_tm (Locals_tm.init u) (first :: rest)).headSplit.map
              (fun sp => (sp.pace : ℝ))
      ∧ (while_loop_tm (Locals_tm.init u) (first :: rest)).divisions.map Prod.fst
          = (while_loop_tm (Locals_tm.init u) (first :: rest)).splitLens.map
              (fun len => len * 3.6)
      ∧ (while_loop_tm (Locals_tm.init u) (first :: rest)).headSplit.length
          = (closing_points 0 first.lat first.lon rest).length
      ∧ (while_loop_tm (Locals_tm.init u) (first :: rest)).pathLen
          = (List.zipWith (fun p q => haversine_m p.lat p.lon q.lat q.lon)
              (first :: rest) rest).sum := by
  obtain ⟨h1, h2, h3⟩ := divisions_while_loop_tm (first :: rest) (Locals_tm.init u)
    ⟨List.Forall₂.nil, rfl, rfl⟩
  refine ⟨?_, h2, h3, while_loop_tm_init_length u first rest,
    while_loop_tm_init_pathLen u first rest⟩
  refine List.Forall₂.imp ?_ h1
  intro sp len h
  have hg : sp.speed = guarded_speed len sp.pace := by
    rw [← ieee_div_eq_guarded_speed]; exact h
  refine ⟨h, hg, fun h0 => ?_⟩
  rw [hg, h0]
  rfl

/-- C11 as stated fails on `track_zero_duration`, four equator points at the seconds 0, 60,
120 and 120: whatever `mktime` reads for `tm_isdst`, the loop closes three splits, the
third one starts and closes at second 120 and has the duration 0, and the last division
that the loop evaluates has the divisor 0.  The speed of that record is obtained by
dividing by zero; no guard is passed. -/
theorem zero_duration_division_by_zero :
    track_zero_duration.map node.timeString = [0, 60, 120, 120]
      ∧ ∀ u : Indeterminate,
          (∃ sp1 sp2, (while_loop_tm (Locals_tm.init u) track_zero_duration).headSplit
              = [sp1, sp2, { splitNo := 3, pace := 0, speed := none, elevDiff := 0 }])
            ∧ (while_loop_tm (Locals_tm.init u) track_zero_duration).divisions.getLast?
                = some (haversine_m 0 0.018 0 0.027 * 3.6, 0) := by
  refine ⟨rfl, fun u => ?_⟩
  have h0 : (0.0 : ℝ) = 0 := by norm_num
  have l1 : haversine_m 0 0 0 0.009 ≥ 1000.0 := equator_leg_009 (by norm_num)
  have l2 : haversine_m 0 0.009 0 0.018 ≥ 1000.0 := equator_leg_009 (by norm_num)
  have l3 : haversine_m 0 0.018 0 0.027 ≥ 1000.0 := equator_leg_009 (by norm_num)
  by_cases hs : 0 < u.startTime_isdst <;> by_cases hf : 0 < u.finishTimeSplit_isdst <;>
    simp [track_zero_duration, while_loop_tm, loop_body_tm, Locals_tm.init, strptime, mktime,
      add_to_splits_list_eq, h0, l1, l2, l3, hs, hf, ieee_div]

/-! ## The durations that `mktime` gives -/

/-- The loop on two points, with the `struct tm` locals: the last point closes the only
split, and its duration is the difference of the two `mktime` results. -/
theorem two_point_loop_tm (u : Indeterminate) (p1 p2 : node) :
    (while_loop_tm (Locals_tm.init u) [p1, p2]).headSplit =
        [{ splitNo := 1
           pace := (mktime { clock := p2.timeString, tm_isdst := u.finishTimeSplit_isdst }).1
             - (mktime { clock := p1.timeString, tm_isdst := u.startTime_isdst }).1
           speed := ieee_div (haversine_m p1.lat p1.lon p2.lat p2.lon * 3.6)
             (((mktime { clock := p2.timeString, tm_isdst := u.finishTimeSplit_isdst }).1
               - (mktime { clock := p1.timeString, tm_isdst := u.startTime_isdst }).1 : ℤ) : ℝ)
           elevDiff := p2.ele - p1.ele }]
      ∧ (while_loop_tm (Locals_tm.init u) [p1, p2]).pathLen
          = haversine_m p1.lat p1.lon p2.lat p2.lon
      ∧ (while_loop_tm (Locals_tm.init u) [p1, p2]).splitLens
          = [haversine_m p1.lat p1.lon p2.lat p2.lon]
      ∧ (while_loop_tm (Locals_tm.init u) [p1, p2]).startTime
          = { clock := p1.timeString, tm_isdst := u.startTime_isdst } := by
  have h0 : (0.0 : ℝ) = 0 := by norm_num
  simp [while_loop_tm, loop_body_tm, Locals_tm.init, strptime, add_to_splits_list_eq, h0]

theorem mktime_of_pos (t d : ℤ) (h : 0 < d) :
    (mktime { clock := t, tm_isdst := d }).1 = t - 3600 := by
  simp [mktime, h]

theorem mktime_of_nonpos (t d : ℤ) (h : d ≤ 0) :
    (mktime { clock := t, tm_isdst := d }).1 = t := by
  simp [mktime, not_lt.mpr h]

/-- The whole function on two points when the text of the one duration fits `time`. -/
theorem two_point_report_tm (u : Indeterminate) (p1 p2 : node) (time : String)
    (htime : sec_to_clock_time
      ((mktime { clock := p2.timeString, tm_isdst := u.finishTimeSplit_isdst }).1
        - (mktime { clock := p1.timeString, tm_isdst := u.startTime_isdst }).1)
      = Except.ok time) :
    ∃ r, calculate_tot_dist_tm u [p1, p2] = Except.ok (r, [time])
      ∧ r.pathLen = haversine_m p1.lat p1.lon p2.lat p2.lon
      ∧ r.elapsedTime
          = (mktime { clock := p2.timeString, tm_isdst := u.finishTime_isdst }).1
            - (mktime { clock := p1.timeString, tm_isdst := u.startTime_isdst }).1
      ∧ r.splits =
          [{ splitNo := 1
             pace := (mktime { clock := p2.timeString, tm_isdst := u.finishTimeSplit_isdst }).1
               - (mktime { clock := p1.timeString, tm_isdst := u.startTime_isdst }).1
             speed := ieee_div (haversine_m p1.lat p1.lon p2.lat p2.lon * 3.6)
               (((mktime { clock := p2.timeString, tm_isdst := u.finishTimeSplit_isdst }).1
                 - (mktime { clock := p1.timeString, tm_isdst := u.startTime_isdst }).1 : ℤ) : ℝ)
             elevDiff := p2.ele - p1.ele }] := by
  obtain ⟨h1, h2, h3, h4⟩ := two_point_loop_tm u p1 p2
  have hp : print_splits (while_loop_tm (Locals_tm.init u) [p1, p2]).headSplit
      = Except.ok [time] := by
    rw [h1]
    simp only [print_splits, htime]
  refine ⟨{ pathLen := (while_loop_tm (Locals_tm.init u) [p1, p2]).pathLen
            elapsedTime :=
              (mktime (strptime p2.timeString { clock := 0, tm_isdst := u.finishTime_isdst })).1
                - (mktime (while_loop_tm (Locals_tm.init u) [p1, p2]).startTime).1
            averagePace :=
              (ieee_div
                ((((mktime (strptime p2.timeString
                      { clock := 0, tm_isdst := u.finishTime_isdst })).1
                    - (mktime (while_loop_tm (Locals_tm.init u) [p1, p2]).startTime).1 : ℤ) : ℝ)
                  * 50.0)
                (while_loop_tm (Locals_tm.init u) [p1, p2]).pathLen).map (fun q => q / 3.0)
            splits := (while_loop_tm (Locals_tm.init u) [p1, p2]).headSplit
            splitLens := (while_loop_tm (Locals_tm.init u) [p1, p2]).splitLens },
    ?_, h2, ?_, h1⟩
  · simp only [calculate_tot_dist_tm, List.getLast?_cons_cons, List.getLast?_singleton, hp]
  · simp only [h4, strptime]

/-- The whole function on two points when the text of the one duration overruns `time`. -/
theorem two_point_overrun_tm (u : Indeterminate) (p1 p2 : node)
    (htime : sec_to_clock_time
      ((mktime { clock := p2.timeString, tm_isdst := u.finishTimeSplit_isdst }).1
        - (mktime { clock := p1.timeString, tm_isdst := u.startTime_isdst }).1)
      = Except.error Fault.buffer_overflow) :
    calculate_tot_dist_tm u [p1, p2] = Except.error Fault.buffer_overflow := by
  obtain ⟨h1, -, -, -⟩ := two_point_loop_tm u p1 p2
  have hp : print_splits (while_loop_tm (Locals_tm.init u) [p1, p2]).headSplit
      = Except.error Fault.buffer_overflow := by
    rw [h1]
    simp only [print_splits, htime]
  simp only [calculate_tot_dist_tm, List.getLast?_cons_cons, List.getLast?_singleton, hp]

/-! ## The durations that `mktime` gives: the claims -/

/-- C3: on the two points `(0, 0, 10)` at second 0 and `(0, 0, 20)` at second 30, whose
timestamps do not decrease, with a positive indeterminate `tm_isdst` in `startTime` and
`finishTime` and a zero one in `finishTimeSplit`, the only split has the duration 3630 s,
printed `60:30`, and the elapsed time is 30 s: the durations do not add up to the elapsed
time. -/
theorem pace_sum_ne_elapsedTime :
    List.Chain' (fun p q : node => p.timeString ≤ q.timeString)
        [{ lat := 0, lon := 0, ele := 10, timeString := 0 },
         { lat := 0, lon := 0, ele := 20, timeString := 30 }]
      ∧ ∃ r rows, calculate_tot_dist_tm
            { startTime_isdst := 1, finishTimeSplit_isdst := 0, finishTime_isdst := 1 }
            [{ lat := 0, lon := 0, ele := 10, timeString := 0 },
             { lat := 0, lon := 0, ele := 20, timeString := 30 }] = Except.ok (r, rows)
          ∧ r.splits.map split.pace = [3630] ∧ rows = ["60:30"] ∧ r.elapsedTime = 30
          ∧ (r.splits.map split.pace).sum ≠ r.elapsedTime := by
  refine ⟨by simp, ?_⟩
  obtain ⟨r, hr, -, he, hs⟩ := two_point_report_tm
    { startTime_isdst := 1, finishTimeSplit_isdst := 0, finishTime_isdst := 1 }
    { lat := 0, lon := 0, ele := 10, timeString := 0 }
    { lat := 0, lon := 0, ele := 20, timeString := 30 } "60:30" rfl
  have hpace : r.splits.map split.pace = [3630] := by rw [hs]; rfl
  have helapsed : r.elapsedTime = 30 := by rw [he]; rfl
  refine ⟨r, _, hr, hpace, rfl, helapsed, ?_⟩
  rw [hpace, helapsed]
  decide

/-- C15: on the two equator points of the scenario, sixty seconds apart, with a positive
indeterminate `tm_isdst` in `startTime` and a zero one in `finishTimeSplit`, the only split
has the duration 3660 s, printed `61:00`, and a speed below 1 km/h, where the scenario has
60 s and about 60 km/h. -/
theorem equator_1000m_duration_off (t0 : ℤ) :
    ∃ r rows, calculate_tot_dist_tm
          { startTime_isdst := 1, finishTimeSplit_isdst := 0, finishTime_isdst := 1 }
          [{ lat := 0, lon := 0, ele := 0, timeString := t0 },
           { lat := 0, lon := 0.009, ele := 0, timeString := t0 + 60 }] = Except.ok (r, rows)
      ∧ rows = ["61:00"]
      ∧ ∃ v : ℝ, r.splits = [{ splitNo := 1, pace := 3660, speed := some v, elevDiff := 0 }]
          ∧ v < 1 := by
  have hpace : (mktime { clock := t0 + 60, tm_isdst := 0 }).1
      - (mktime { clock := t0, tm_isdst := 1 }).1 = 3660 := by
    rw [mktime_of_nonpos _ _ (le_refl _), mktime_of_pos _ _ (by decide)]
    ring
  obtain ⟨r, hr, -, -, hs⟩ := two_point_report_tm
    { startTime_isdst := 1, finishTimeSplit_isdst := 0, finishTime_isdst := 1 }
    { lat := 0, lon := 0, ele := 0, timeString := t0 }
    { lat := 0, lon := 0.009, ele := 0, timeString := t0 + 60 } "61:00"
    (by rw [hpace]; rfl)
  obtain ⟨-, -, hhi⟩ := equator_009_distance
  simp only [hpace] at hs
  refine ⟨r, _, hr, rfl, haversine_m 0 0 0 0.009 * 3.6 / 3660, ?_, ?_⟩
  · rw [hs]
    simp [ieee_div]
  · norm_num at hhi ⊢
    linarith

/-- C16: on the two points of the scenario, at the same coordinates thirty seconds apart,
with a positive indeterminate `tm_isdst` in `startTime` and a zero one in
`finishTimeSplit`, the one split has the duration 3630 s, printed `60:30`, where the
scenario has 30 s; and on two such points 60000000 s apart, whatever is read for
`tm_isdst`, printing the row overruns `time` (the defect of `sec_to_clock_time`). -/
theorem zero_distance_duration_off :
    (∀ t0 : ℤ,
      ∃ r rows, calculate_tot_dist_tm
            { startTime_isdst := 1, finishTimeSplit_isdst := 0, finishTime_isdst := 1 }
            [{ lat := 0, lon := 0, ele := 10, timeString := t0 },
             { lat := 0, lon := 0, ele := 20, timeString := t0 + 30 }] = Except.ok (r, rows)
        ∧ r.pathLen = 0
        ∧ r.splits = [{ splitNo := 1, pace := 3630, speed := some 0, elevDiff := 10 }]
        ∧ rows = ["60:30"])
    ∧ calculate_tot_dist_tm
          { startTime_isdst := 0, finishTimeSplit_isdst := 0, finishTime_isdst := 0 }
          [{ lat := 0, lon := 0, ele := 10, timeString := 0 },
           { lat := 0, lon := 0, ele := 20, timeString := 60000000 }]
        = Except.error Fault.buffer_overflow := by
  constructor
  · intro t0
    have hpace : (mktime { clock := t0 + 30, tm_isdst := 0 }).1
        - (mktime { clock := t0, tm_isdst := 1 }).1 = 3630 := by
      rw [mktime_of_nonpos _ _ (le_refl _), mktime_of_pos _ _ (by decide)]
      ring
    obtain ⟨r, hr, hp, -, hs⟩ := two_point_report_tm
      { startTime_isdst := 1, finishTimeSplit_isdst := 0, finishTime_isdst := 1 }
      { lat := 0, lon := 0, ele := 10, timeString := t0 }
      { lat := 0, lon := 0, ele := 20, timeString := t0 + 30 } "60:30"
      (by rw [hpace]; rfl)
    simp only [hpace, haversine_m_same_point] at hs hp
    refine ⟨r, _, hr, hp, ?_, rfl⟩
    rw [hs]
    simp [ieee_div]
    norm_num
  · exact two_point_overrun_tm _ _ _ rfl

/-- C18: on two points whose second timestamp is sixty seconds before the first, with a
positive indeterminate `tm_isdst` in `startTime` and `finishTime` and a zero one in
`finishTimeSplit`, the elapsed time is `-60` but the duration of the split is `3540`,
printed `59:00`: the negative difference is not surfaced.  And on two points 6000000 s
apart in the wrong order, whatever is read for `tm_isdst`, printing the row of the duration
`-6000000` overruns `time` (the defect of `sec_to_clock_time`): the function does not
complete without a fault. -/
theorem negative_duration_not_surfaced :
    (∃ r rows, calculate_tot_dist_tm
          { startTime_isdst := 1, finishTimeSplit_isdst := 0, finishTime_isdst := 1 }
          [{ lat := 0, lon := 0, ele := 0, timeString := 100 },
           { lat := 0, lon := 0, ele := 0, timeString := 40 }] = Except.ok (r, rows)
        ∧ r.elapsedTime = -60 ∧ r.splits.map split.pace = [3540] ∧ rows = ["59:00"])
    ∧ calculate_tot_dist_tm
          { startTime_isdst := 0, finishTimeSplit_isdst := 0, finishTime_isdst := 0 }
          [{ lat := 0, lon := 0, ele := 0, timeString := 6000000 },
           { lat := 0, lon := 0, ele := 0, timeString := 0 }]
        = Except.error Fault.buffer_overflow := by
  constructor
  · obtain ⟨r, hr, -, he, hs⟩ := two_point_report_tm
      { startTime_isdst := 1, finishTimeSplit_isdst := 0, finishTime_isdst := 1 }
      { lat := 0, lon := 0, ele := 0, timeString := 100 }
      { lat := 0, lon := 0, ele := 0, timeString := 40 } "59:00" rfl
    refine ⟨r, _, hr, ?_, ?_, rfl⟩
    · rw [he]; rfl
    · rw [hs]; rfl
  · exact two_point_overrun_tm _ _ _ rfl

/-! ## When no `tm_isdst` is positive

With indeterminate values that are not positive `mktime` returns the second count that the
fields denote, and the function with the `struct tm` locals computes what
`calculate_tot_dist` above computes; the table is then printed from its records. -/

theorem mktime_snd_no_dst (x : tm) : (mktime x).2.tm_isdst ≤ 0 := by
  unfold mktime
  split_ifs <;> exact le_refl _

theorem mktime_of_no_dst (x : tm) (h : x.tm_isdst ≤ 0) :
    (mktime x).1 = x.clock ∧ (mktime x).2.clock = x.clock := by
  unfold mktime
  rw [if_neg (not_lt.mpr h)]
  exact ⟨rfl, rfl⟩

theorem loop_body_tm_no_dst (s : Locals_tm) (p : node) (next : List node) (hs : s.no_dst) :
    (loop_body_tm s p next).toLocals = loop_body s.toLocals p next
      ∧ (loop_body_tm s p next).no_dst := by
  obtain ⟨h1, h2, h3⟩ := hs
  have hf : (mktime { clock := p.timeString, tm_isdst := s.finishTimeSplit.tm_isdst }).1
        = p.timeString
      ∧ (mktime { clock := p.timeString, tm_isdst := s.finishTimeSplit.tm_isdst }).2.clock
        = p.timeString :=
    mktime_of_no_dst { clock := p.timeString, tm_isdst := s.finishTimeSplit.tm_isdst } h3
  have hst := (mktime_of_no_dst s.startTimeSplit h2).1
  have hn := mktime_snd_no_dst { clock := p.timeString, tm_isdst := s.finishTimeSplit.tm_isdst }
  unfold Locals_tm.no_dst
  simp only [loop_body_tm, loop_body, Locals_tm.toLocals]
  split_ifs <;> simp [strptime, hf.1, hf.2, hst, h1, h2, h3, hn]

theorem while_loop_tm_no_dst (l : List node) :
    ∀ s : Locals_tm, s.no_dst →
      (while_loop_tm s l).toLocals = while_loop s.toLocals l ∧ (while_loop_tm s l).no_dst := by
  induction l with
  | nil => intro s hs; exact ⟨rfl, hs⟩
  | cons p next ih =>
    intro s hs
    obtain ⟨h1, h2⟩ := loop_body_tm_no_dst s p next hs
    rw [while_loop_tm, while_loop, ← h1]
    exact ih _ h2

/-- With no positive indeterminate `tm_isdst`, on a non-empty list, the function with the
`struct tm` locals returns the report of `calculate_tot_dist` when every duration fits
`time`, and faults with the overrun otherwise. -/
theorem calculate_tot_dist_tm_no_dst (u : Indeterminate) (first : node) (rest : List node)
    (hu : u.startTime_isdst ≤ 0 ∧ u.finishTimeSplit_isdst ≤ 0 ∧ u.finishTime_isdst ≤ 0) :
    ∃ r, calculate_tot_dist (first :: rest) = Except.ok r
      ∧ calculate_tot_dist_tm u (first :: rest)
          = (match print_splits r.splits with
              | Except.error e => Except.error e
              | Except.ok rows => Except.ok (r, rows)) := by
  have hinit : (Locals_tm.init u).no_dst := ⟨hu.1, le_refl _, hu.2.1⟩
  obtain ⟨h1, h2⟩ := while_loop_tm_no_dst (first :: rest) (Locals_tm.init u) hinit
  have hloc : (Locals_tm.init u).toLocals = Locals.init := rfl
  rw [hloc] at h1
  have hfin := mktime_of_nonpos
    ((first :: rest).getLast (List.cons_ne_nil first rest)).timeString u.finishTime_isdst hu.2.2
  have hstart := (mktime_of_no_dst (while_loop_tm (Locals_tm.init u) (first :: rest)).startTime
    h2.1).1
  have hst : (while_loop Locals.init (first :: rest)).startTime = first.timeString := by
    rw [while_loop, while_loop_startTime rest _ (loop_body_flag _ first rest),
      loop_body_first _ first rest rfl]
  refine ⟨_, calculate_tot_dist_cons first rest, ?_⟩
  have e1 : (while_loop_tm (Locals_tm.init u) (first :: rest)).pathLen
      = (while_loop Locals.init (first :: rest)).pathLen := by rw [← h1]; rfl
  have e2 : (while_loop_tm (Locals_tm.init u) (first :: rest)).headSplit
      = (while_loop Locals.init (first :: rest)).headSplit := by rw [← h1]; rfl
  have e3 : (while_loop_tm (Locals_tm.init u) (first :: rest)).splitLens
      = (while_loop Locals.init (first :: rest)).splitLens := by rw [← h1]; rfl
  have e4 : (while_loop_tm (Locals_tm.init u) (first :: rest)).startTime.clock
      = first.timeString := by rw [← hst, ← h1]; rfl
  simp only [calculate_tot_dist_tm, List.getLast?_eq_getLast _ (List.cons_ne_nil first rest),
    hfin, hstart, e1, e2, e3, e4, strptime]

end GPSAnalysis
